import Mathlib

/-!
Verification of the streaming chat completion pipeline of this repository.

The embedding translates `src/app/api/chat/route.ts` (completion orchestrator,
conversation lock manager, token relay / drain loop, helper-process transport)
and the SSE transport variant of the chat route.  JavaScript strings are
modelled as Lean `String` (a packed `List Char`); the JS string helpers used by
the source (`trim`, `trimStart`, `toLowerCase`, `includes`) are re-implemented
below on the character list so that all definitions are executable and reduce
in the kernel.
-/

namespace HeavyFingers

/-- Model of JS `String.prototype.trim`: drop whitespace on both ends. -/
def trimChars (l : List Char) : List Char :=
  ((l.dropWhile Char.isWhitespace).reverse.dropWhile Char.isWhitespace).reverse

/-- Model of JS `value.trim()`. -/
def jsTrim (s : String) : String :=
  ⟨trimChars s.data⟩

/-- Model of JS `value.trimStart()`. -/
def jsTrimStart (s : String) : String :=
  ⟨s.data.dropWhile Char.isWhitespace⟩

/-- Model of JS `value.toLowerCase()` (ASCII; the source only matches ASCII). -/
def jsToLower (s : String) : String :=
  ⟨s.data.map Char.toLower⟩

/-- Does `pat` occur as a contiguous run inside the character list? -/
def charsContain (pat : List Char) : List Char → Bool
  | [] => pat.isEmpty
  | c :: rest => pat.isPrefixOf (c :: rest) || charsContain pat rest

/-- Model of JS `hay.includes(pat)`. -/
def hasSubstring (hay pat : String) : Bool :=
  charsContain pat.data hay.data

/-- Concatenation of a list of strings (JS `array.join("")`). -/
def joinAll (l : List String) : String :=
  l.foldl (· ++ ·) ""

end HeavyFingers

namespace Route

open HeavyFingers

/-- The finish reasons of the stream protocol (`StreamFinishReason` in
`src/app/api/chat/route.ts`). -/
inductive StreamFinishReason
  | stop
  | length
  | contentFilter
  | toolCalls
  | error
  | other
deriving DecidableEq, Repr

/-- Embedding of `normalizeFinishReason` from `src/app/api/chat/route.ts`. -/
def normalizeFinishReason (rawReason : String) : StreamFinishReason :=
  if rawReason = "stop" then .stop
  else if rawReason = "length" then .length
  else if rawReason = "content_filter" ∨ rawReason = "content-filter" then .contentFilter
  else if rawReason = "tool_calls" ∨ rawReason = "tool-calls" then .toolCalls
  else if rawReason = "error" then .error
  else .other

/-- A parsed stdout line of the helper process (`AskQuestionEvent`).  The
JSON parsing in `consumeEventLine` is abstracted: the event list contains the
successfully parsed lines; blank or unparseable lines are the `other`
constructor (they leave the state unchanged, as in the source).
`token` carries a string `token` field; `final` carries an optional string
`text` field and an optional string `finish_reason` field; `errorEv` carries a
string `message` field. -/
inductive AskEvent
  | token (tok : String)
  | final (text : Option String) (finishReason : Option String)
  | errorEv (message : String)
  | other
deriving DecidableEq, Repr

/-- The mutable locals of the `streamFromAskQuestionScript` promise executor:
accumulated assistant text, current finish reason, last reported error, plus
the (observed) sequence of `onToken` callback invocations. -/
structure ScriptState where
  assistantText : String
  finishReason : StreamFinishReason
  reportedError : Option String
  emitted : List String
deriving DecidableEq, Repr

def ScriptState.start : ScriptState :=
  { assistantText := "", finishReason := .stop, reportedError := none, emitted := [] }

/-- Embedding of `consumeEventLine` (post JSON parse) from
`src/app/api/chat/route.ts` lines 268-300. -/
def consumeEvent (st : ScriptState) (e : AskEvent) : ScriptState :=
  match e with
  | .token tok =>
      { st with emitted := st.emitted ++ [tok], assistantText := st.assistantText ++ tok }
  | .final text fr =>
      let st1 :=
        match text with
        | some t => if t.length > 0 then { st with assistantText := t } else st
        | none => st
      match fr with
      | some r => { st1 with finishReason := normalizeFinishReason r }
      | none => st1
  | .errorEv msg =>
      if jsTrim msg ≠ "" then { st with reportedError := some msg } else st
  | .other => st

/-- Fold all stdout events of one helper-process run. -/
def runScriptState (events : List AskEvent) : ScriptState :=
  events.foldl consumeEvent ScriptState.start

/-- The resolved value of `streamFromAskQuestionScript`. -/
structure ScriptResult where
  assistantText : String
  finishReason : StreamFinishReason
deriving DecidableEq, Repr

/-- One complete helper-process invocation, as observed by the route: its
parsed stdout events (complete lines plus a trailing non-blank partial line,
in emission order), its exit code (`none` models a `null` code, i.e. a child
killed by a signal) and its captured stderr text. -/
structure ScriptRun where
  events : List AskEvent
  exitCode : Option Int
  stderr : String

def exitCodeText : Option Int → String
  | some c => toString c
  | none => "unknown"

/-- Embedding of the `close` handler of `streamFromAskQuestionScript`
(`src/app/api/chat/route.ts` lines 325-349). -/
def closeScript (st : ScriptState) (exitCode : Option Int) (stderr : String) :
    Except String ScriptResult :=
  match st.reportedError with
  | some msg => .error msg
  | none =>
      if exitCode ≠ some 0 then
        let stderrText := jsTrim stderr
        .error (if stderrText ≠ "" then stderrText
          else
            let code := exitCodeText exitCode
            s!"askQuestion.py exited with code {code}.")
      else if jsTrim st.assistantText = "" then
        .error "askQuestion.py returned an empty assistant response."
      else
        .ok { assistantText := st.assistantText, finishReason := st.finishReason }

/-- Outcome of one full `streamFromAskQuestionScript` call: the `onToken`
callback arguments in order, and the settled promise. -/
def runScript (run : ScriptRun) : List String × Except String ScriptResult :=
  let st := runScriptState run.events
  (st.emitted, closeScript st run.exitCode run.stderr)

/-- Embedding of `shouldRetryWithoutScriptStreaming`; errors are already the
message strings produced by `getErrorMessage`. -/
def shouldRetryWithoutScriptStreaming (msg : String) : Bool :=
  let normalized := jsToLower msg
  if normalized = "" then false
  else
    hasSubstring normalized "empty assistant response" ||
    hasSubstring normalized "returned no completion choices"

/-- Embedding of `isRetryableDedalusServerError`. -/
def isRetryableDedalusServerError (msg : String) : Bool :=
  let normalized := jsToLower msg
  if normalized = "" then false
  else
    hasSubstring normalized "dedalus request failed with status 500" ||
    hasSubstring normalized "failed to reach dedalus api"

/-- Embedding of `toClientError` (argument is the `getErrorMessage` string). -/
def toClientError (message : String) : String :=
  let normalized := jsToLower message
  if hasSubstring message "DEDALUS_API_KEY" then
    "Missing or invalid DEDALUS_API_KEY. Set a valid key and restart the server."
  else if hasSubstring normalized "dedalus request failed with status 500" then
    "The selected model is temporarily unavailable on Dedalus right now. Switch models and try again."
  else if hasSubstring normalized "dedalus request failed with status 403" then
    "Dedalus rejected the request (403). Verify API key permissions and allowed origins, then retry."
  else if hasSubstring normalized "cloudflare" then
    "Dedalus request was blocked upstream (Cloudflare). Please retry in a moment."
  else if message = "" then "Chat request failed."
  else message

def DEFAULT_MODEL : String := "anthropic/claude-opus-4-5"

def RELIABLE_FALLBACK_MODEL : String := "openai/gpt-4o-mini"

/-- The `ALLOWED_MODELS` set of the route. -/
def ALLOWED_MODELS : List String :=
  ["anthropic/claude-opus-4-5", "openai/gpt-4o-mini", "google/gemini-1.5-pro"]

def allowedModel (m : String) : Bool :=
  ALLOWED_MODELS.contains m

/-- Embedding of `getModelFailoverChain`; `enableFailover` is the
`CHAT_ENABLE_MODEL_FAILOVER` feature flag. -/
def getModelFailoverChain (enableFailover : Bool) (preferredModel : String) : List String :=
  if !enableFailover then
    if allowedModel preferredModel then [preferredModel] else [DEFAULT_MODEL]
  else
    let candidates := [preferredModel, RELIABLE_FALLBACK_MODEL, DEFAULT_MODEL]
    candidates.foldl
      (fun deduped candidate =>
        if !allowedModel candidate then deduped
        else if deduped.contains candidate then deduped
        else deduped ++ [candidate])
      []

/-- Embedding of `enqueueToken` from the `execute` closure: empty tokens are
dropped, others appended to the pending queue. -/
def enqueueToken (pending : List String) (token : String) : List String :=
  if token = "" then pending else pending ++ [token]

def enqueueAll (pending : List String) (tokens : List String) : List String :=
  tokens.foldl enqueueToken pending

/-- Embedding of the `drainTokens` loop for the phase after `streamClosed` is
set: repeatedly splice `min(STREAM_TOKENS_PER_FLUSH, pending.length)` tokens,
join them, and emit the joined delta unless it is empty.  The fuel argument
(`pending.length` at the start) only guards against a flush size of zero,
which the route's clamping (`Math.max(1, ...)`) rules out.  While the stream
is open, flush boundaries additionally depend on event-loop timing, but the
emitted deltas are always a partition of the pending queue into consecutive
runs, so the content and order of the flushed text are schedule-independent;
we model the canonical schedule in which the producer finishes first. -/
def drainClosedAux (flushSize : Nat) : Nat → List String → List String
  | 0, _ => []
  | _, [] => []
  | fuel + 1, pending =>
      let chunkSize := min flushSize pending.length
      let delta := joinAll (pending.take chunkSize)
      let rest := pending.drop chunkSize
      if delta = "" then drainClosedAux flushSize fuel rest
      else delta :: drainClosedAux flushSize fuel rest

def drainClosed (flushSize : Nat) (pending : List String) : List String :=
  drainClosedAux flushSize pending.length pending

/-- The events written to the client stream by the `execute` closure.  The
generated message / text-part ids are constant within a turn and carry no
information, so they are omitted. -/
inductive ClientEvent
  | start
  | startStep
  | textStart
  | textDelta (delta : String)
  | textEnd
  | finishStep
  | finish (finishReason : StreamFinishReason)
deriving DecidableEq, Repr

/-- Turn configuration derived from the environment: the
`CHAT_ENABLE_MODEL_FAILOVER` flag and the clamped
`CHAT_STREAM_TOKENS_PER_FLUSH` value (the route clamps it into `1..8`). -/
structure ExecConfig where
  enableFailover : Bool
  tokensPerFlush : Nat
deriving DecidableEq, Repr

/-- An oracle describing what each spawned helper process does, in spawn
order.  The route is single-threaded, so the `n`-th spawn of a turn is
deterministic given the environment; the oracle abstracts the external
helper's behaviour. -/
def ScriptOracle := Nat → ScriptRun

deriving instance DecidableEq for Except

/-- Log entry for one helper invocation: the model passed via `--model`, the
`--stream`/`--no-stream` flag, and the settled promise of the call. -/
structure CallRecord where
  model : String
  streaming : Bool
  result : Except String ScriptResult
deriving DecidableEq, Repr

/-- The mutable locals of `execute` that the attempt loops touch. -/
structure TurnState where
  callIdx : Nat
  calls : List CallRecord
  pending : List String
  sawTokenEvent : Bool
  backoffs : List Nat
deriving DecidableEq, Repr

def TurnState.start : TurnState :=
  { callIdx := 0, calls := [], pending := [], sawTokenEvent := false, backoffs := [] }

/-- One `streamFromAskQuestionScript` call from `execute`: every `onToken`
callback sets `sawTokenEvent` and enqueues the token (failed calls included),
and the call record is appended. -/
def invoke (oracle : ScriptOracle) (st : TurnState) (model : String) (streaming : Bool) :
    TurnState × Except String ScriptResult :=
  let run := oracle st.callIdx
  let (emitted, result) := runScript run
  ({ st with
      callIdx := st.callIdx + 1,
      calls := st.calls ++ [{ model := model, streaming := streaming, result := result }],
      sawTokenEvent := st.sawTokenEvent || !emitted.isEmpty,
      pending := enqueueAll st.pending emitted },
    result)

/-- The inner `try`/`catch` of one attempt: a streaming call, retried once
without upstream streaming when the error is an empty/invalid-response error
(`shouldRetryWithoutScriptStreaming`); any other error propagates. -/
def attemptOnce (oracle : ScriptOracle) (st : TurnState) (model : String) :
    TurnState × Except String ScriptResult :=
  let (st1, r) := invoke oracle st model true
  match r with
  | .ok res => (st1, .ok res)
  | .error e =>
      if !shouldRetryWithoutScriptStreaming e then (st1, .error e)
      else invoke oracle st1 model false

/-- The `for attempt in 1..maxAttempts` loop of `execute` for one candidate
model: on a retryable error with attempts left, wait `300 * attempt` ms
(recorded in `backoffs`) and try again; otherwise surface the error.  The
structural `fuel` argument is the number of attempts still allowed after the
current one (`maxAttempts - attempt`), so `hasAttemptsLeft` is `fuel ≠ 0`. -/
def candidateAttemptsFuel (oracle : ScriptOracle) (model : String) :
    Nat → Nat → TurnState → TurnState × Except String ScriptResult
  | attempt, fuel, st =>
      let (st1, r) := attemptOnce oracle st model
      match r with
      | .ok res => (st1, .ok res)
      | .error e =>
          match fuel with
          | 0 => (st1, .error e)
          | fuel' + 1 =>
              if isRetryableDedalusServerError e then
                candidateAttemptsFuel oracle model (attempt + 1) fuel'
                  { st1 with backoffs := st1.backoffs ++ [300 * attempt] }
              else (st1, .error e)

/-- The attempt loop, started at `attempt = 1`. -/
def candidateAttempts (oracle : ScriptOracle) (st : TurnState) (model : String)
    (maxAttempts : Nat) : TurnState × Except String ScriptResult :=
  candidateAttemptsFuel oracle model 1 (maxAttempts - 1) st

/-- The `for candidateModel of modelCandidates` loop: returns the state, the
last error observed (`lastModelError`) and, on success, the winning model with
its result. -/
def runCandidates (oracle : ScriptOracle) (maxAttempts : Nat) :
    TurnState → Option String → List String → TurnState × Option String × Option (String × ScriptResult)
  | st, lastErr, [] => (st, lastErr, none)
  | st, lastErr, model :: rest =>
      let (st1, r) := candidateAttempts oracle st model maxAttempts
      match r with
      | .ok res => (st1, lastErr, some (model, res))
      | .error e => runCandidates oracle maxAttempts st1 (some e) rest

/-- Everything a finished `execute` closure did that the claims mention. -/
structure ExecOutcome where
  events : List ClientEvent
  persistedText : Option String
  repersistedModel : Option String
  modelUsed : String
  calls : List CallRecord
  backoffs : List Nat
  pendingAll : List String
  finishReasonOut : Option StreamFinishReason
  errorThrown : Option String
  lockReleased : Bool
deriving DecidableEq, Repr

/-- Embedding of the `execute` closure of the chat route for one turn.

Writes happen in source order: `start`, `start-step`, `text-start` before the
candidate loop; `text-delta`s from the drain loop; after the `finally` block
(which always drains the queue, conditionally persists, and releases the
conversation lock), the terminal `text-end`/`finish-step`/`finish` trio is
written only when `streamCompleted` was set.  Writer errors are not modelled
(writes are sinks), and the two conversation-store calls in the `finally`
block are modelled as succeeding (their failures are caught and logged by the
source).  An aborted client connection is not consulted anywhere by
`execute` itself: it only influences the behaviour of the spawned helper
processes (via the kill on abort), which the oracle describes. -/
def executeTurn (cfg : ExecConfig) (oracle : ScriptOracle) (selectedModel : String) :
    ExecOutcome :=
  let maxAttempts := if cfg.enableFailover then 2 else 1
  let chain := getModelFailoverChain cfg.enableFailover selectedModel
  let (st, lastErr, result?) := runCandidates oracle maxAttempts TurnState.start none chain
  let opening : List ClientEvent := [.start, .startStep, .textStart]
  match result? with
  | none =>
      let errMsg :=
        match lastErr with
        | some e => e
        | none => "Dedalus did not return a response."
      { events := opening ++ (drainClosed cfg.tokensPerFlush st.pending).map .textDelta,
        persistedText := none,
        repersistedModel := none,
        modelUsed := selectedModel,
        calls := st.calls,
        backoffs := st.backoffs,
        pendingAll := st.pending,
        finishReasonOut := none,
        errorThrown := some errMsg,
        lockReleased := true }
  | some (model, res) =>
      let pendingAll :=
        if !st.sawTokenEvent && res.assistantText ≠ "" then
          enqueueToken st.pending res.assistantText
        else st.pending
      let deltas := drainClosed cfg.tokensPerFlush pendingAll
      let persisted := if jsTrim res.assistantText ≠ "" then some res.assistantText else none
      { events := opening ++ deltas.map .textDelta ++
          [.textEnd, .finishStep, .finish res.finishReason],
        persistedText := persisted,
        repersistedModel :=
          if model ≠ selectedModel ∧ persisted.isSome then some model else none,
        modelUsed := model,
        calls := st.calls,
        backoffs := st.backoffs,
        pendingAll := pendingAll,
        finishReasonOut := some res.finishReason,
        errorThrown := none,
        lockReleased := true }

/-- A part of a UI message: a `{type: "text", text}` part or any other part
kind (ignored by `extractTextFromUIMessage`). -/
inductive MsgPart
  | text (s : String)
  | nonText
deriving DecidableEq, Repr

inductive Role
  | system
  | user
  | assistant
  | roleOther
deriving DecidableEq, Repr

/-- A `UIMessage` as far as the route reads it: role, parts, and the legacy
raw `content` field (`none` when absent or not a string).  An absent `parts`
array is modelled as `[]` (both join to the empty string in the source). -/
structure UIMsg where
  role : Role
  parts : List MsgPart
  content : Option String
deriving DecidableEq, Repr

/-- Embedding of `extractTextFromUIMessage`. -/
def extractTextFromUIMessage (m : UIMsg) : String :=
  let fromParts := joinAll (m.parts.filterMap fun p =>
    match p with
    | .text s => some s
    | .nonText => none)
  if fromParts.length > 0 then fromParts
  else
    match m.content with
    | some c => c
    | none => ""

/-- Embedding of `getLatestUserMessage`: walk the messages from the end and
return the first user message whose extracted, trimmed text is non-empty. -/
def getLatestUserMessage (messages : List UIMsg) : Option String :=
  messages.reverse.findSome? fun m =>
    if m.role = .user then
      let text := jsTrim (extractTextFromUIMessage m)
      if text ≠ "" then some text else none
    else none

def conversationIdChar (c : Char) : Bool :=
  c.isAlphanum || c = '_' || c = '-'

/-- Embedding of `sanitizeConversationId`: `null`/empty is rejected, then the
trimmed value keeps only `[a-zA-Z0-9_-]` and must stay non-empty. -/
def sanitizeConversationId (value : Option String) : Option String :=
  match value with
  | none => none
  | some v =>
      if v = "" then none
      else
        let sanitized : String := ⟨(jsTrim v).data.filter conversationIdChar⟩
        if sanitized.length > 0 then some sanitized else none

/-- Embedding of `sanitizeRequestedModel` (`none` models a non-string body
field). -/
def sanitizeRequestedModel (value : Option String) : Option String :=
  match value with
  | none => none
  | some v =>
      let trimmed := jsTrim v
      if trimmed = "" then none
      else if allowedModel trimmed then some trimmed else none

/-- The environment configuration the POST handler reads. -/
structure PostEnv where
  dedalusApiKey : Option String
  dedalusModelEnv : Option String
  activeConversationId : Option String
deriving DecidableEq, Repr

/-- Behaviour of the external conversation store's `persistPromptSnapshot`
call for this turn: success (returning the conversation id), a file-not-found
(ENOENT) rejection, or any other rejection with its message. -/
inductive StoreResult
  | ok (conversationId : String)
  | enoent
  | otherError (msg : String)
deriving DecidableEq, Repr

/-- The request body / query fields the POST handler reads. -/
structure PostRequest where
  messages : List UIMsg
  conversationIdBody : Option String
  conversationIdQuery : Option String
  model : Option String
deriving DecidableEq, Repr

/-- An HTTP response of the POST handler: a JSON error body with a status, or
the streamed response produced by the `execute` closure. -/
inductive PostResponse
  | json (status : Nat) (errorBody : String)
  | stream (outcome : ExecOutcome)
deriving DecidableEq, Repr

/-- Does the `DEDALUS_API_KEY` check fail (missing, blank or placeholder)? -/
def missingApiKey (key : Option String) : Bool :=
  match key with
  | none => true
  | some k =>
      let t := jsTrim k
      t = "" || t = "your_key_here"

/-- The `sanitizedRequestedConversationId` variable of the handler: sanitize
the body's conversation id (falling back to the query parameter as the source
does with `??`), then fall back to the sanitized active conversation id. -/
def resolvedConversationId (env : PostEnv) (req : PostRequest) : Option String :=
  let requestedConversationId :=
    match req.conversationIdBody with
    | some b => some b
    | none => req.conversationIdQuery
  match sanitizeConversationId requestedConversationId with
  | some s => some s
  | none => sanitizeConversationId env.activeConversationId

/-- Embedding of the `POST` handler of `src/app/api/chat/route.ts` (the store
is the external collaborator `store`; the streamed half is `executeTurn`).
The conversation lock is acquired after validation and released on every
error path before the JSON response is returned (and inside `execute`'s
`finally` otherwise), which the `executeTurn` outcome records. -/
def POSTmodel (cfg : ExecConfig) (env : PostEnv) (store : StoreResult)
    (req : PostRequest) (oracle : ScriptOracle) : PostResponse :=
  if missingApiKey env.dedalusApiKey then
    .json 500 "Missing or invalid DEDALUS_API_KEY. Set a valid key and restart the server."
  else
    match resolvedConversationId env req with
    | none =>
        .json 400 "No active conversation selected. Create or select a conversation before sending a message."
    | some convId =>
        let requestedModel := sanitizeRequestedModel req.model
        let selectedModel :=
          match requestedModel with
          | some m => m
          | none =>
              match env.dedalusModelEnv with
              | some e => if jsTrim e = "" then DEFAULT_MODEL else jsTrim e
              | none => DEFAULT_MODEL
        match store with
        | .enoent =>
            .json 404 ("Conversation \"" ++ convId ++ "\" was not found.")
        | .otherError msg =>
            .json 500 (toClientError msg)
        | .ok _persistedId =>
            match getLatestUserMessage req.messages with
            | none => .json 400 "No user message found in chat payload."
            | some _userMessage => .stream (executeTurn cfg oracle selectedModel)

/-- The payloads of the `text-delta` events of a client event list, in
emission order. -/
def deltasOf (events : List ClientEvent) : List String :=
  events.filterMap fun e =>
    match e with
    | .textDelta d => some d
    | _ => none

/-- Does this helper event replace the accumulated assistant text (a `final`
event with a non-empty `text` field)? -/
def finalOverrides : AskEvent → Bool
  | .final (some t) _ => t.length > 0
  | _ => false

def noFinalOverride (events : List AskEvent) : Bool :=
  events.all fun e => !finalOverrides e

/-- Specification-side reading of the helper run (for C6): the `token` field
of every token event, in order. -/
def specTokens (events : List AskEvent) : List String :=
  events.filterMap fun e =>
    match e with
    | .token tok => some tok
    | _ => none

/-- Specification-side reading (for C6): the message of the last `error`
event whose trimmed message is non-empty. -/
def specReportedError (events : List AskEvent) : Option String :=
  events.reverse.findSome? fun e =>
    match e with
    | .errorEv m => if jsTrim m ≠ "" then some m else none
    | _ => none

/-- Specification-side reading (for C6), on the reversed event list: the
accumulated assistant text is the text of the last overriding `final` event
followed by every token after it, or the concatenation of all tokens when no
`final` event overrides. -/
def specAccumTextRev : List AskEvent → String
  | [] => ""
  | e :: earlier =>
      match e with
      | .token tok => specAccumTextRev earlier ++ tok
      | .final (some t) _ => if t.length > 0 then t else specAccumTextRev earlier
      | _ => specAccumTextRev earlier

def specAccumText (events : List AskEvent) : String :=
  specAccumTextRev events.reverse

/-- Specification-side reading (for C6): the finish reason is the normalized
`finish_reason` of the last `final` event carrying one, defaulting to
`stop`. -/
def specFinishReason (events : List AskEvent) : StreamFinishReason :=
  match events.reverse.findSome? (fun e =>
    match e with
    | .final _ (some r) => some r
    | _ => none) with
  | some r => normalizeFinishReason r
  | none => .stop

/-- Specification-side first-occurrence deduplication (for C4): keep an
element iff it has not been seen before. -/
def specDedupGo (seen : List String) : List String → List String
  | [] => []
  | x :: rest =>
      if seen.contains x then specDedupGo seen rest
      else x :: specDedupGo (seen ++ [x]) rest

def specDedup (l : List String) : List String :=
  specDedupGo [] l

/-- Specification-side (C4/C8): the calls of one *failed* attempt on a
candidate: a streaming call whose error is not an empty/invalid-response
error, or a streaming call with such an error followed by the buffered
retry, whose own outcome is the attempt's error. -/
inductive AttemptCalls (model : String) : List CallRecord → String → Prop
  | direct (e : String) :
      shouldRetryWithoutScriptStreaming e = false →
      AttemptCalls model [{ model := model, streaming := true, result := .error e }] e
  | bufferedRetry (e1 e2 : String) :
      shouldRetryWithoutScriptStreaming e1 = true →
      AttemptCalls model
        [{ model := model, streaming := true, result := .error e1 },
         { model := model, streaming := false, result := .error e2 }] e2

/-- Specification-side (C4/C8): the calls of one *successful* attempt on a
candidate. -/
inductive AttemptSuccess (model : String) : List CallRecord → ScriptResult → Prop
  | direct (res : ScriptResult) :
      AttemptSuccess model [{ model := model, streaming := true, result := .ok res }] res
  | bufferedRetry (e : String) (res : ScriptResult) :
      shouldRetryWithoutScriptStreaming e = true →
      AttemptSuccess model
        [{ model := model, streaming := true, result := .error e },
         { model := model, streaming := false, result := .ok res }] res

/-- Specification-side (C4): the retry policy for one candidate, starting at
attempt number `a`: stop on success; stop on a non-retryable error or when no
attempts remain; otherwise wait `300 * a` (linear backoff) and try again. -/
inductive CandidateRun (model : String) (maxAttempts : Nat) :
    Nat → List CallRecord → List Nat → Except String ScriptResult → Prop
  | success (a : Nat) (calls : List CallRecord) (res : ScriptResult) :
      AttemptSuccess model calls res →
      CandidateRun model maxAttempts a calls [] (.ok res)
  | failStop (a : Nat) (calls : List CallRecord) (e : String) :
      AttemptCalls model calls e →
      (isRetryableDedalusServerError e = false ∨ maxAttempts ≤ a) →
      CandidateRun model maxAttempts a calls [] (.error e)
  | failRetry (a : Nat) (calls : List CallRecord) (e : String)
      (rest : List CallRecord) (backs : List Nat) (out : Except String ScriptResult) :
      AttemptCalls model calls e →
      isRetryableDedalusServerError e = true →
      a < maxAttempts →
      CandidateRun model maxAttempts (a + 1) rest backs out →
      CandidateRun model maxAttempts a (calls ++ rest) (300 * a :: backs) out

/-- Specification-side (C4): traversal of the candidate chain: advance to the
next candidate after exhausting one, stop at the first candidate that
produces output. -/
inductive ChainRun (maxAttempts : Nat) :
    List String → List CallRecord → List Nat → Option (String × ScriptResult) → Prop
  | exhausted : ChainRun maxAttempts [] [] [] none
  | firstSucceeds (model : String) (rest : List String) (calls : List CallRecord)
      (backs : List Nat) (res : ScriptResult) :
      CandidateRun model maxAttempts 1 calls backs (.ok res) →
      ChainRun maxAttempts (model :: rest) calls backs (some (model, res))
  | advance (model : String) (rest : List String) (calls : List CallRecord)
      (backs : List Nat) (e : String) (calls2 : List CallRecord) (backs2 : List Nat)
      (out : Option (String × ScriptResult)) :
      CandidateRun model maxAttempts 1 calls backs (.error e) →
      ChainRun maxAttempts rest calls2 backs2 out →
      ChainRun maxAttempts (model :: rest) (calls ++ calls2) (backs ++ backs2) out

/-- Specification-side (C8): the shape of a turn's complete call log — a
sequence of attempt blocks.  A streaming call either succeeds, fails with an
error that is not an empty/invalid-response error, or fails with such an
error and is immediately followed by exactly one buffered (non-streaming)
call on the same model. -/
inductive BlocksOk : List CallRecord → Prop
  | nil : BlocksOk []
  | okStream (m : String) (res : ScriptResult) (rest : List CallRecord) :
      BlocksOk rest → BlocksOk ({ model := m, streaming := true, result := .ok res } :: rest)
  | errStream (m : String) (e : String) (rest : List CallRecord) :
      shouldRetryWithoutScriptStreaming e = false → BlocksOk rest →
      BlocksOk ({ model := m, streaming := true, result := .error e } :: rest)
  | bufferedPair (m : String) (e : String) (r2 : Except String ScriptResult)
      (rest : List CallRecord) :
      shouldRetryWithoutScriptStreaming e = true → BlocksOk rest →
      BlocksOk ({ model := m, streaming := true, result := .error e } ::
        { model := m, streaming := false, result := r2 } :: rest)

/-- Concrete helper behaviours used to instantiate the theorems below. -/
def oracleHi : ScriptOracle := fun _ => ⟨[.token "Hi"], some 0, ""⟩

/-- The first spawn exits 0 with no events (empty-response error, which
triggers the buffered retry); the buffered retry succeeds. -/
def oracleEmptyThenOk : ScriptOracle := fun n =>
  if n = 0 then ⟨[], some 0, ""⟩ else ⟨[.token "Hi"], some 0, ""⟩

def oracleHiThere : ScriptOracle := fun _ => ⟨[.token "Hi", .token " there"], some 0, ""⟩

/-- A helper that streams `Hi` but whose `final` event replaces the text. -/
def oracleOverride : ScriptOracle := fun n =>
  if n = 0 then ⟨[.token "Hi", .final (some "Bye") none], some 0, ""⟩
  else ⟨[], some 0, ""⟩

/-- The first spawn is killed mid-stream (abort: exit code `null`); the next
spawn — made with the signal already aborted, so its abort listener never
fires — completes normally. -/
def oracleAbort : ScriptOracle := fun n =>
  if n = 0 then ⟨[.token "par"], none, ""⟩
  else ⟨[.token "Hello"], some 0, ""⟩

/-- Every spawn fails with a non-retryable error. -/
def oracleFail : ScriptOracle := fun _ => ⟨[], some 1, "boom"⟩

/-- The first spawn streams the fragment `Hel` and then exits 1 (a
non-retryable failure), so the turn advances to the next candidate, whose
spawn streams `Hello` and succeeds. -/
def oracleFailThenOk : ScriptOracle := fun n =>
  if n = 0 then ⟨[.token "Hel"], some 1, "boom"⟩
  else ⟨[.token "Hello"], some 0, ""⟩

end Route

namespace Lock

/-!
Model of `acquireConversationLock` / `conversationLockQueues` for one fixed
conversation id (the map is keyed by id and ids do not interact).

Each `acquireConversationLock` call is a *ticket*, numbered in the order the
synchronous prefix of the calls runs (the read-chain-store steps are atomic
under the event loop).  A ticket records:
  * `gen`  — the identity of the `ConversationLockQueue` object it chained
    onto (`conversationLockQueues.get(id) === queue` compares objects; a
    fresh object is created whenever the map entry is absent);
  * `prev` — the ticket whose `tail` promise was `queue.tail` when this call
    chained (`none` when the queue object was fresh, whose tail is an already
    resolved promise);
  * `released` — whether this ticket's `releaseGate` has been resolved.

The map entry is `entry = some (gen, tail ticket)` or `none` (deleted).

`tail t` (the promise `nextTail` of ticket `t`) is resolved iff `prev t`'s
tail is resolved and `gate t` is resolved; the `await previousTail` of ticket
`t` completes — the lock is *granted* — iff `prev t`'s tail is resolved.
-/

structure TicketInfo where
  gen : Nat
  prev : Option Nat
  released : Bool
deriving DecidableEq, Repr

structure LockState where
  tickets : List TicketInfo
  entry : Option (Nat × Nat)
  nextGen : Nat
deriving DecidableEq, Repr

def LockState.start : LockState :=
  { tickets := [], entry := none, nextGen := 0 }

/-- Has ticket `t` resolved its `releaseGate`? -/
def isReleased (s : LockState) (t : Nat) : Bool :=
  match s.tickets[t]? with
  | some info => info.released
  | none => false

/-- Resolution of the promise chain, with fuel (the chain only links to
strictly earlier tickets, so fuel `t` suffices for ticket `t`). -/
def grantedFuel (s : LockState) : Nat → Nat → Bool
  | fuel, t =>
      match s.tickets[t]? with
      | none => false
      | some info =>
          match info.prev with
          | none => true
          | some p =>
              match fuel with
              | 0 => false
              | fuel' + 1 => isReleased s p && grantedFuel s fuel' p

/-- Ticket `t` has been granted the lock: its `await previousTail` completed,
i.e. every gate in its wait chain has been resolved. -/
def granted (s : LockState) (t : Nat) : Bool :=
  grantedFuel s t t

/-- The synchronous prefix of `acquireConversationLock`: read the queue (or
create a fresh object), chain behind its tail, store the new tail. -/
def acquire (s : LockState) : LockState :=
  match s.entry with
  | none =>
      { tickets := s.tickets ++ [{ gen := s.nextGen, prev := none, released := false }],
        entry := some (s.nextGen, s.tickets.length),
        nextGen := s.nextGen + 1 }
  | some (g, tailTicket) =>
      { tickets := s.tickets ++ [{ gen := g, prev := some tailTicket, released := false }],
        entry := some (g, s.tickets.length),
        nextGen := s.nextGen }

/-- Calling the release closure of ticket `t`: a no-op after the first call
(the closure's `released` flag) and only callable once the acquisition
completed (the closure is the return value of `acquireConversationLock`);
otherwise it resolves the gate and deletes the map entry when the entry still
holds this ticket's queue object with this ticket's `nextTail` as tail. -/
def release (s : LockState) (t : Nat) : LockState :=
  match s.tickets[t]? with
  | none => s
  | some info =>
      if info.released then s
      else if !granted s t then s
      else
        let tickets := s.tickets.set t { info with released := true }
        let entry :=
          match s.entry with
          | some (g, tailTicket) => if g = info.gen ∧ tailTicket = t then none else s.entry
          | none => none
        { s with tickets := tickets, entry := entry }

inductive LockOp
  | acq
  | rel (t : Nat)
deriving DecidableEq, Repr

def lockStep (s : LockState) : LockOp → LockState
  | .acq => acquire s
  | .rel t => release s t

/-- Run a history of acquire / release-closure calls from the empty map. -/
def runLock (ops : List LockOp) : LockState :=
  ops.foldl lockStep LockState.start

/-- Ticket `t` currently holds the lock: granted and not yet released. -/
def holder (s : LockState) (t : Nat) : Prop :=
  granted s t = true ∧ isReleased s t = false

/-- The invariant of reachable lock states: chain links point strictly
backwards to the largest earlier ticket of the same queue generation, the map
entry (when present) holds the newest ticket and its generation, tickets of
superseded generations (or all tickets, once the entry is deleted) are
released, generations grow monotonically, and a released gate implies the
ticket had been granted. -/
structure Inv (s : LockState) : Prop where
  prevLt : ∀ (i : Nat) (info : TicketInfo) (p : Nat),
    s.tickets[i]? = some info → info.prev = some p → p < i
  prevGen : ∀ (i : Nat) (info : TicketInfo) (p : Nat) (pinfo : TicketInfo),
    s.tickets[i]? = some info → info.prev = some p →
    s.tickets[p]? = some pinfo → pinfo.gen = info.gen
  prevLargest : ∀ (i : Nat) (info : TicketInfo) (p j : Nat) (jinfo : TicketInfo),
    s.tickets[i]? = some info → info.prev = some p →
    p < j → j < i → s.tickets[j]? = some jinfo → jinfo.gen ≠ info.gen
  firstOfGen : ∀ (i : Nat) (info : TicketInfo) (j : Nat) (jinfo : TicketInfo),
    s.tickets[i]? = some info → info.prev = none →
    j < i → s.tickets[j]? = some jinfo → jinfo.gen ≠ info.gen
  entryTail : ∀ (g t : Nat), s.entry = some (g, t) → t + 1 = s.tickets.length ∧
    ∃ info : TicketInfo, s.tickets[t]? = some info ∧ info.gen = g
  noEntryAllReleased : s.entry = none → ∀ (i : Nat) (info : TicketInfo),
    s.tickets[i]? = some info → info.released = true
  oldGenReleased : ∀ (g t i : Nat) (info : TicketInfo),
    s.entry = some (g, t) → s.tickets[i]? = some info →
    info.gen ≠ g → info.released = true
  genLtNext : ∀ (i : Nat) (info : TicketInfo),
    s.tickets[i]? = some info → info.gen < s.nextGen
  genMono : ∀ (i j : Nat) (iinfo jinfo : TicketInfo), i ≤ j →
    s.tickets[i]? = some iinfo →
    s.tickets[j]? = some jinfo → iinfo.gen ≤ jinfo.gen
  releasedGranted : ∀ (i : Nat) (info : TicketInfo),
    s.tickets[i]? = some info → info.released = true →
    granted s i = true

end Lock

namespace Sse

open HeavyFingers
open Route (StreamFinishReason)

/-!
Model of the HTTP SSE transport of the chat route variant
(`processDedalusSseEvent` / `streamDedalusCompletion`).  The file's
`StreamFinishReason` union is identical to the one in `route.ts`, so the same
Lean type is reused.  JSON values are modelled structurally and `JSON.parse`
is an oracle parameter (`parse`); `JSON.stringify`/network encoding is out of
scope.
-/

inductive Json
  | str (s : String)
  | num (n : Int)
  | jsonBool (b : Bool)
  | null
  | arr (elements : List Json)
  | obj (fields : List (String × Json))

/-- JS property access `value?.name` for parsed-JSON values: only objects
have properties; the first binding of the name wins. -/
def Json.getField : Json → String → Option Json
  | .obj fields, name =>
      fields.findSome? (fun f => if f.1 = name then some f.2 else none)
  | _, _ => none

/-- Embedding of `mapDedalusFinishReason` (note: unlike the helper-process
route, it accepts only the underscore spellings). -/
def mapDedalusFinishReason (rawFinishReason : String) : StreamFinishReason :=
  if rawFinishReason = "stop" then .stop
  else if rawFinishReason = "length" then .length
  else if rawFinishReason = "content_filter" then .contentFilter
  else if rawFinishReason = "tool_calls" then .toolCalls
  else if rawFinishReason = "error" then .error
  else .other

/-- Split a character list on newline characters (JS `rawEvent.split("\n")`). -/
def splitOnNl : List Char → List (List Char)
  | [] => [[]]
  | c :: rest =>
      match splitOnNl rest with
      | line :: lines =>
          if c = '\n' then [] :: line :: lines else (c :: line) :: lines
      | [] => [[c]]

def joinWithNl : List (List Char) → List Char
  | [] => []
  | [l] => l
  | l :: rest => l ++ '\n' :: joinWithNl rest

/-- Embedding of `extractSseDataLines`: keep the `data:` lines, strip the
prefix, trim leading whitespace, re-join with newlines. -/
def extractSseDataLines (rawEvent : String) : String :=
  ⟨joinWithNl
    (((splitOnNl rawEvent.data).filter (fun l => "data:".data.isPrefixOf l)).map
      (fun l => (l.drop 5).dropWhile Char.isWhitespace))⟩

/-- The `delta.content` token contributed by one element of `choices` (only
non-empty strings are emitted). -/
def choiceToken (choice : Json) : Option String :=
  match (choice.getField "delta").bind (fun d => d.getField "content") with
  | some (.str s) => if s.length > 0 then some s else none
  | _ => none

/-- The normalized finish reason contributed by one element of `choices`. -/
def choiceFinishReason (choice : Json) : Option StreamFinishReason :=
  match choice.getField "finish_reason" with
  | some (.str s) => if s.length > 0 then some (mapDedalusFinishReason s) else none
  | _ => none

/-- The `error.message` string of a payload, when present. -/
def payloadErrorMessage (payload : Json) : Option String :=
  match payload.getField "error" with
  | some errValue =>
      match errValue.getField "message" with
      | some (.str m) => some m
      | _ => none
  | none => none

/-- Embedding of `processDedalusSseEvent`: the result carries the `onToken`
arguments, the `onFinishReason` arguments and the `isDone` flag; a thrown
error is `Except.error`.  An empty `error.message` string is falsy in the
source (`if (errorMessage)`), so it does not throw. -/
def processDedalusSseEvent (parse : String → Option Json) (rawEvent : String) :
    Except String (List String × List StreamFinishReason × Bool) :=
  let data := extractSseDataLines rawEvent
  let normalizedData := jsTrim data
  if normalizedData = "" then .ok ([], [], false)
  else if normalizedData = "[DONE]" then .ok ([], [], true)
  else
    match parse normalizedData with
    | none => .ok ([], [], false)
    | some payload =>
        let handleChoices : Except String (List String × List StreamFinishReason × Bool) :=
          match payload.getField "choices" with
          | some (.arr choices) =>
              .ok (choices.filterMap choiceToken, choices.filterMap choiceFinishReason, false)
          | _ => .ok ([], [], false)
        match payloadErrorMessage payload with
        | some m => if m ≠ "" then .error m else handleChoices
        | none => handleChoices

/-- Embedding of `value.replace(/\r\n/g, "\n")`: left-to-right,
non-overlapping. -/
def replCRLF : List Char → List Char
  | [] => []
  | [c] => [c]
  | c1 :: c2 :: rest =>
      if c1 = '\r' ∧ c2 = '\n' then '\n' :: replCRLF rest
      else c1 :: replCRLF (c2 :: rest)

/-- First `"\n\n"` occurrence: the text before it and the text after it
(the inner `buffer.indexOf("\n\n")` / slicing of the read loop). -/
def findEventSplit : List Char → Option (List Char × List Char)
  | [] => none
  | c :: rest =>
      if c = '\n' ∧ rest.head? = some '\n' then some ([], rest.tail)
      else
        match findEventSplit rest with
        | some (pre, post) => some (c :: pre, post)
        | none => none

/-- All complete events currently in the buffer, and the remaining partial
event (the inner `while` loop of `streamDedalusCompletion`).  Structural
fuel: each extracted event consumes at least the two delimiter characters,
so `buffer.length` steps always suffice. -/
def splitEventsFuel : Nat → List Char → List (List Char) × List Char
  | 0, buffer => ([], buffer)
  | fuel + 1, buffer =>
      match findEventSplit buffer with
      | none => ([], buffer)
      | some (pre, post) =>
          let (events, rest) := splitEventsFuel fuel post
          (pre :: events, rest)

def splitEvents (buffer : List Char) : List (List Char) × List Char :=
  splitEventsFuel buffer.length buffer

/-- Fold one extracted raw event into the accumulated tokens / finish
reasons. -/
def applyEvent (parse : String → Option Json)
    (acc : List String × List StreamFinishReason) (rawEvent : List Char) :
    Except String ((List String × List StreamFinishReason) × Bool) :=
  match processDedalusSseEvent parse ⟨rawEvent⟩ with
  | .error e => .error e
  | .ok (toks, reasons, isDone) => .ok ((acc.1 ++ toks, acc.2 ++ reasons), isDone)

/-- Process extracted events in order, stopping at a thrown error or at the
`[DONE]` sentinel (second component `true`). -/
def applyEvents (parse : String → Option Json)
    (acc : List String × List StreamFinishReason) :
    List (List Char) → Except String ((List String × List StreamFinishReason) × Bool)
  | [] => .ok (acc, false)
  | e :: rest =>
      match applyEvent parse acc e with
      | .error err => .error err
      | .ok (acc1, true) => .ok (acc1, true)
      | .ok (acc1, false) => applyEvents parse acc1 rest

/-- The read loop of `streamDedalusCompletion`: per chunk, normalize CRLF,
append to the buffer, extract and process every complete event; at
end-of-stream, process the trimmed trailing buffer if non-empty. -/
def streamBodyLoop (parse : String → Option Json)
    (acc : List String × List StreamFinishReason) (buffer : List Char) :
    List String → Except String (List String × List StreamFinishReason)
  | [] =>
      let trailingEvent := jsTrim ⟨buffer⟩
      if trailingEvent = "" then .ok acc
      else
        match processDedalusSseEvent parse trailingEvent with
        | .error e => .error e
        | .ok (toks, reasons, _) => .ok (acc.1 ++ toks, acc.2 ++ reasons)
  | chunk :: rest =>
      let buffer1 := buffer ++ replCRLF chunk.data
      let (events, buffer2) := splitEvents buffer1
      match applyEvents parse acc events with
      | .error e => .error e
      | .ok (acc1, true) => .ok acc1
      | .ok (acc1, false) => streamBodyLoop parse acc1 buffer2 rest

/-- Reference computation: process the entire (already normalized) body text
at once, starting from `acc`. -/
def streamBodyWholeFrom (parse : String → Option Json)
    (acc : List String × List StreamFinishReason) (body : List Char) :
    Except String (List String × List StreamFinishReason) :=
  let (events, rest) := splitEvents body
  match applyEvents parse acc events with
  | .error e => .error e
  | .ok (acc1, true) => .ok acc1
  | .ok (acc1, false) =>
      let trailingEvent := jsTrim ⟨rest⟩
      if trailingEvent = "" then .ok acc1
      else
        match processDedalusSseEvent parse trailingEvent with
        | .error e => .error e
        | .ok (toks, reasons, _) => .ok (acc1.1 ++ toks, acc1.2 ++ reasons)

/-- Embedding of `readDedalusErrorResponse`: the parsed error body's
`error.message` if it is a non-empty string, else a generic status message. -/
def readDedalusErrorResponse (status : Nat) (errorBody : Option Json) : String :=
  let message :=
    match errorBody with
    | some body => payloadErrorMessage body
    | none => none
  match message with
  | some m => if m = "" then s!"Dedalus request failed with status {status}." else m
  | none => s!"Dedalus request failed with status {status}."

/-- Embedding of `streamDedalusCompletion`, with the HTTP response abstracted
to: did `fetch` report 2xx (`respOk`), the status and parsed error body
otherwise, whether a body stream was present, and the decoded text chunks of
the body. -/
def streamDedalusCompletion (parse : String → Option Json) (apiKey : Option String)
    (respOk : Bool) (status : Nat) (errorBody : Option Json) (hasBody : Bool)
    (chunks : List String) : Except String (List String × List StreamFinishReason) :=
  match apiKey with
  | none => .error "Missing DEDALUS_API_KEY."
  | some k =>
      if jsTrim k = "" then .error "Missing DEDALUS_API_KEY."
      else if !respOk then .error (readDedalusErrorResponse status errorBody)
      else if !hasBody then .error "Dedalus stream response did not include a body."
      else streamBodyLoop parse ([], []) [] chunks

/-- A concrete `JSON.parse` oracle used to instantiate the transport
theorems: `tok` parses to a one-choice payload carrying the token `Hi`,
`err` to a payload with a top-level error message. -/
def testParse : String → Option Json := fun s =>
  if s = "tok" then
    some (.obj [("choices", .arr [.obj [("delta", .obj [("content", .str "Hi")])]])])
  else if s = "err" then
    some (.obj [("error", .obj [("message", .str "bad")])])
  else none

end Sse

/-! ## Theorems -/

namespace HeavyFingers

theorem joinAll_data (l : List String) : (joinAll l).data = (l.map String.data).flatten := by
  suffices h : ∀ s : String, (l.foldl (· ++ ·) s).data = s.data ++ (l.map String.data).flatten by
    simpa using h ""
  induction l with
  | nil => intro s; simp [joinAll]
  | cons c rest ih =>
      intro s
      simp [List.foldl, ih, String.data_append]

theorem joinAll_append (a b : List String) :
    joinAll (a ++ b) = joinAll a ++ joinAll b := by
  apply String.ext
  simp [joinAll_data, String.data_append]

theorem joinAll_nil : joinAll [] = "" := rfl

theorem joinAll_cons (x : String) (l : List String) :
    joinAll (x :: l) = x ++ joinAll l := by
  apply String.ext
  simp [joinAll_data, String.data_append]

theorem joinAll_singleton (s : String) : joinAll [s] = s := by
  apply String.ext
  simp [joinAll_data]

end HeavyFingers

namespace Route

open HeavyFingers

theorem drainClosedAux_join (f : Nat) (hf : 1 ≤ f) :
    ∀ fuel pending, pending.length ≤ fuel →
      joinAll (drainClosedAux f fuel pending) = joinAll pending := by
  intro fuel
  induction fuel with
  | zero =>
      intro pending hlen
      have : pending = [] := List.eq_nil_of_length_eq_zero (Nat.le_zero.mp hlen)
      subst this
      rfl
  | succ fuel ih =>
      intro pending hlen
      cases pending with
      | nil => rfl
      | cons p ps =>
          simp only [drainClosedAux]
          have hchunk : 1 ≤ min f (p :: ps).length := by
            simp [Nat.le_min]
            exact hf
          have hsplit : joinAll (p :: ps) =
              joinAll ((p :: ps).take (min f (p :: ps).length)) ++
              joinAll ((p :: ps).drop (min f (p :: ps).length)) := by
            rw [← joinAll_append, List.take_append_drop]
          have hrest : ((p :: ps).drop (min f (p :: ps).length)).length ≤ fuel := by
            simp only [List.length_drop]
            have := List.length_cons p ps
            omega
          by_cases hd : joinAll ((p :: ps).take (min f (p :: ps).length)) = ""
          · rw [if_pos hd, ih _ hrest, hsplit, hd]
            apply String.ext
            simp [String.data_append]
          · rw [if_neg hd]
            rw [joinAll_cons, ih _ hrest, hsplit]

theorem drainClosed_join (f : Nat) (hf : 1 ≤ f) (pending : List String) :
    joinAll (drainClosed f pending) = joinAll pending :=
  drainClosedAux_join f hf pending.length pending (Nat.le_refl _)

theorem mem_drainClosedAux_ne_empty (f : Nat) :
    ∀ fuel pending d, d ∈ drainClosedAux f fuel pending → d ≠ "" := by
  intro fuel
  induction fuel with
  | zero => intro pending d hd; simp [drainClosedAux] at hd
  | succ fuel ih =>
      intro pending d hd
      cases pending with
      | nil => simp [drainClosedAux] at hd
      | cons p ps =>
          simp only [drainClosedAux] at hd
          by_cases hz : joinAll ((p :: ps).take (min f (p :: ps).length)) = ""
          · rw [if_pos hz] at hd
            exact ih _ d hd
          · rw [if_neg hz] at hd
            rcases List.mem_cons.mp hd with h | h
            · rw [h]; exact hz
            · exact ih _ d h

theorem mem_drainClosed_ne_empty (f : Nat) (pending : List String) (d : String)
    (hd : d ∈ drainClosed f pending) : d ≠ "" :=
  mem_drainClosedAux_ne_empty f pending.length pending d hd

end Route

namespace Route

open HeavyFingers

theorem executeTurn_of_none (cfg : ExecConfig) (oracle : ScriptOracle) (model : String)
    (st : TurnState) (lastErr : Option String)
    (h : runCandidates oracle (if cfg.enableFailover then 2 else 1) TurnState.start none
        (getModelFailoverChain cfg.enableFailover model) = (st, lastErr, none)) :
    executeTurn cfg oracle model =
      { events := [.start, .startStep, .textStart] ++
          (drainClosed cfg.tokensPerFlush st.pending).map ClientEvent.textDelta,
        persistedText := none,
        repersistedModel := none,
        modelUsed := model,
        calls := st.calls,
        backoffs := st.backoffs,
        pendingAll := st.pending,
        finishReasonOut := none,
        errorThrown := some (lastErr.getD "Dedalus did not return a response."),
        lockReleased := true } := by
  simp only [executeTurn]
  rw [h]
  cases lastErr <;> rfl

theorem executeTurn_of_some (cfg : ExecConfig) (oracle : ScriptOracle) (model : String)
    (st : TurnState) (lastErr : Option String) (winner : String) (res : ScriptResult)
    (h : runCandidates oracle (if cfg.enableFailover then 2 else 1) TurnState.start none
        (getModelFailoverChain cfg.enableFailover model) = (st, lastErr, some (winner, res))) :
    executeTurn cfg oracle model =
      { events := [.start, .startStep, .textStart] ++
          (drainClosed cfg.tokensPerFlush
            (if !st.sawTokenEvent && res.assistantText ≠ "" then
              enqueueToken st.pending res.assistantText
            else st.pending)).map ClientEvent.textDelta ++
          [.textEnd, .finishStep, .finish res.finishReason],
        persistedText := if jsTrim res.assistantText ≠ "" then some res.assistantText else none,
        repersistedModel :=
          if winner ≠ model ∧
              (if jsTrim res.assistantText ≠ "" then some res.assistantText else none).isSome then
            some winner
          else none,
        modelUsed := winner,
        calls := st.calls,
        backoffs := st.backoffs,
        pendingAll :=
          if !st.sawTokenEvent && res.assistantText ≠ "" then
            enqueueToken st.pending res.assistantText
          else st.pending,
        finishReasonOut := some res.finishReason,
        errorThrown := none,
        lockReleased := true } := by
  simp only [executeTurn]
  rw [h]

end Route

namespace Route

/-- C10: every `text-delta` event written to the client carries a non-empty
delta string — `enqueueToken` drops empty tokens at enqueue time and the
drain loop skips batches that join to the empty string, for every turn and
every sequence of backend tokens. -/
theorem c10_text_delta_nonempty (cfg : ExecConfig) (oracle : ScriptOracle)
    (model d : String)
    (hd : ClientEvent.textDelta d ∈ (executeTurn cfg oracle model).events) : d ≠ "" := by
  rcases hE : runCandidates oracle (if cfg.enableFailover then 2 else 1) TurnState.start none
      (getModelFailoverChain cfg.enableFailover model) with ⟨st, lastErr, res?⟩
  cases res? with
  | none =>
      rw [executeTurn_of_none cfg oracle model st lastErr hE] at hd
      simp only [List.mem_append, List.mem_cons, List.not_mem_nil, or_false,
        List.mem_map] at hd
      rcases hd with (h | h | h) | ⟨a, ha, haeq⟩
      · cases h
      · cases h
      · cases h
      · cases haeq
        exact mem_drainClosed_ne_empty _ _ _ ha
  | some winres =>
      rcases winres with ⟨winner, res⟩
      rw [executeTurn_of_some cfg oracle model st lastErr winner res hE] at hd
      simp only [List.mem_append, List.mem_cons, List.not_mem_nil, or_false,
        List.mem_map] at hd
      rcases hd with ((h | h | h) | ⟨a, ha, haeq⟩) | (h | h | h)
      · cases h
      · cases h
      · cases h
      · cases haeq
        exact mem_drainClosed_ne_empty _ _ _ ha
      · cases h
      · cases h
      · cases h

/-- Witness for C10 at a concrete turn: the helper streams `Hi` and the
emitted delta is non-empty. -/
theorem c10_text_delta_nonempty_witness : ("Hi" : String) ≠ "" :=
  c10_text_delta_nonempty ⟨false, 2⟩ oracleHi DEFAULT_MODEL "Hi" (by decide)

/-- C2: a successfully completed turn writes exactly
`start, start-step, text-start, text-delta*, text-end, finish-step, finish`
(the `finish` event carrying the resolved finish reason), and an aborted or
failed turn writes no terminal `text-end`/`finish` pair. -/
theorem c2_event_sequence (cfg : ExecConfig) (oracle : ScriptOracle) (model : String) :
    ((executeTurn cfg oracle model).errorThrown = none →
      ∃ (deltas : List String) (reason : StreamFinishReason),
        (executeTurn cfg oracle model).events =
          [ClientEvent.start, ClientEvent.startStep, ClientEvent.textStart] ++
            List.map ClientEvent.textDelta deltas ++
            [ClientEvent.textEnd, ClientEvent.finishStep, ClientEvent.finish reason] ∧
        (executeTurn cfg oracle model).finishReasonOut = some reason) ∧
    ((executeTurn cfg oracle model).errorThrown ≠ none →
      (∃ (deltas : List String),
        (executeTurn cfg oracle model).events =
          [ClientEvent.start, ClientEvent.startStep, ClientEvent.textStart] ++
            List.map ClientEvent.textDelta deltas) ∧
      ∀ r, ClientEvent.textEnd ∉ (executeTurn cfg oracle model).events ∧
        ClientEvent.finish r ∉ (executeTurn cfg oracle model).events) := by
  rcases hE : runCandidates oracle (if cfg.enableFailover then 2 else 1) TurnState.start none
      (getModelFailoverChain cfg.enableFailover model) with ⟨st, lastErr, res?⟩
  cases res? with
  | none =>
      rw [executeTurn_of_none cfg oracle model st lastErr hE]
      constructor
      · intro h; cases h
      · intro _
        refine ⟨⟨drainClosed cfg.tokensPerFlush st.pending, rfl⟩, ?_⟩
        intro r
        refine ⟨?_, ?_⟩
        all_goals
          simp only [List.mem_append, List.mem_cons, List.not_mem_nil, or_false,
            List.mem_map]
          rintro ((h | h | h) | ⟨a, _, haeq⟩)
          · cases h
          · cases h
          · cases h
          · cases haeq
  | some winres =>
      rcases winres with ⟨winner, res⟩
      rw [executeTurn_of_some cfg oracle model st lastErr winner res hE]
      constructor
      · intro _
        exact ⟨_, res.finishReason, rfl, rfl⟩
      · intro h; exact absurd rfl h

/-- Witness for C2 at a concrete successful turn (helper streams `Hi`). -/
theorem c2_event_sequence_witness :
    (executeTurn ⟨false, 2⟩ oracleHi DEFAULT_MODEL).errorThrown = none ∧
    ∃ (deltas : List String) (reason : StreamFinishReason),
      (executeTurn ⟨false, 2⟩ oracleHi DEFAULT_MODEL).events =
        [ClientEvent.start, ClientEvent.startStep, ClientEvent.textStart] ++
          List.map ClientEvent.textDelta deltas ++
          [ClientEvent.textEnd, ClientEvent.finishStep, ClientEvent.finish reason] ∧
      (executeTurn ⟨false, 2⟩ oracleHi DEFAULT_MODEL).finishReasonOut = some reason :=
  ⟨by decide, (c2_event_sequence ⟨false, 2⟩ oracleHi DEFAULT_MODEL).1 (by decide)⟩

end Route

namespace HeavyFingers

theorem string_append_empty (s : String) : s ++ "" = s := by
  apply String.ext
  simp [String.data_append]

theorem string_empty_append (s : String) : "" ++ s = s := by
  apply String.ext
  simp [String.data_append]

theorem string_append_assoc (a b c : String) : a ++ b ++ c = a ++ (b ++ c) := by
  apply String.ext
  simp [String.data_append]

end HeavyFingers

namespace Route

open HeavyFingers

theorem joinAll_enqueueToken (pending : List String) (t : String) :
    joinAll (enqueueToken pending t) = joinAll pending ++ t := by
  unfold enqueueToken
  by_cases ht : t = ""
  · rw [if_pos ht, ht, string_append_empty]
  · rw [if_neg ht, joinAll_append, joinAll_singleton]

theorem joinAll_enqueueAll (tokens : List String) :
    ∀ pending, joinAll (enqueueAll pending tokens) = joinAll pending ++ joinAll tokens := by
  induction tokens with
  | nil => intro pending; simp [enqueueAll, joinAll_nil, string_append_empty]
  | cons t ts ih =>
      intro pending
      show joinAll (enqueueAll (enqueueToken pending t) ts) = _
      rw [ih, joinAll_enqueueToken, joinAll_cons, string_append_assoc]

theorem closeScript_ok (st : ScriptState) (code : Option Int) (stderr : String)
    (res : ScriptResult) (h : closeScript st code stderr = .ok res) :
    res.assistantText = st.assistantText ∧ res.finishReason = st.finishReason ∧
    jsTrim st.assistantText ≠ "" := by
  unfold closeScript at h
  cases hr : st.reportedError with
  | some m => rw [hr] at h; cases h
  | none =>
      rw [hr] at h
      by_cases hc : code ≠ some 0
      · rw [if_pos hc] at h; cases h
      · rw [if_neg hc] at h
        by_cases he : jsTrim st.assistantText = ""
        · rw [if_pos he] at h; cases h
        · rw [if_neg he] at h
          injection h with h
          subst h
          exact ⟨rfl, rfl, he⟩

theorem assistantText_of_noFinalOverride (events : List AskEvent)
    (hno : noFinalOverride events = true) :
    (runScriptState events).assistantText = joinAll (runScriptState events).emitted := by
  suffices h : ∀ st : ScriptState, st.assistantText = joinAll st.emitted →
      (events.foldl consumeEvent st).assistantText =
      joinAll (events.foldl consumeEvent st).emitted by
    exact h ScriptState.start (by simp [ScriptState.start, joinAll_nil])
  induction events with
  | nil => intro st hst; exact hst
  | cons e rest ih =>
      intro st hst
      have hne : noFinalOverride rest = true := by
        simp only [noFinalOverride, List.all_cons, Bool.and_eq_true] at hno
        exact hno.2
      have hee : finalOverrides e = false := by
        simp only [noFinalOverride, List.all_cons, Bool.and_eq_true] at hno
        simpa using hno.1
      have ihr := ih hne
      show (rest.foldl consumeEvent (consumeEvent st e)).assistantText = _
      apply ihr
      cases e with
      | token tok => simp [consumeEvent, hst, joinAll_append, joinAll_singleton]
      | final text fr =>
          cases text with
          | none => cases fr <;> simp [consumeEvent, hst]
          | some t =>
              have ht : ¬t.length > 0 := by
                simp [finalOverrides] at hee
                omega
              cases fr <;> simp [consumeEvent, ht, hst]
      | errorEv m =>
          by_cases hm : jsTrim m ≠ ""
          · simp [consumeEvent, hm, hst]
          · simp [consumeEvent, hm, hst]
      | other => exact hst

theorem getModelFailoverChain_ne_nil (enable : Bool) (pm : String) :
    getModelFailoverChain enable pm ≠ [] := by
  cases enable with
  | false =>
      simp only [getModelFailoverChain]
      split_ifs <;> simp_all
  | true =>
      have hD : allowedModel DEFAULT_MODEL = true := by decide
      simp only [getModelFailoverChain, List.foldl]
      split_ifs <;> simp_all

theorem deltasOf_shape (ds : List String) :
    deltasOf ([ClientEvent.start, ClientEvent.startStep, ClientEvent.textStart] ++
      List.map ClientEvent.textDelta ds ++
      [ClientEvent.textEnd, ClientEvent.finishStep, ClientEvent.finish r]) = ds := by
  simp only [deltasOf, List.filterMap_append, List.filterMap_map]
  have : List.filterMap
      ((fun e =>
          match e with
          | ClientEvent.textDelta d => some d
          | _ => none) ∘ ClientEvent.textDelta) ds = List.filterMap some ds := rfl
  simp [this]

end Route

namespace Route

open HeavyFingers

theorem runCandidates_first_success (oracle : ScriptOracle) (maxA : Nat) (c : String)
    (rest : List String) (res : ScriptResult)
    (hok : (runScript (oracle 0)).2 = .ok res) :
    runCandidates oracle maxA TurnState.start none (c :: rest) =
      ({ callIdx := 1,
         calls := [{ model := c, streaming := true, result := .ok res }],
         pending := enqueueAll [] (runScript (oracle 0)).1,
         sawTokenEvent := !(runScript (oracle 0)).1.isEmpty,
         backoffs := [] }, none, some (c, res)) := by
  rcases hR : runScript (oracle 0) with ⟨emitted, result⟩
  rw [hR] at hok
  simp only at hok
  subst hok
  simp only [runCandidates, candidateAttempts, candidateAttemptsFuel, attemptOnce, invoke,
    TurnState.start, hR]
  simp

end Route

namespace Route

open HeavyFingers

/-- C1 counterexample: a turn that completes successfully (no error, terminal
events emitted) in which the helper streams the token `Hi` but its `final`
event carries `text = "Bye"`; the route persists `Bye` via
`appendAssistantCompletion` while the concatenated `text-delta` payloads are
`Hi`. -/
theorem c1_concat_counterexample :
    (executeTurn ⟨false, 2⟩ oracleOverride DEFAULT_MODEL).errorThrown = none ∧
    (executeTurn ⟨false, 2⟩ oracleOverride DEFAULT_MODEL).persistedText = some "Bye" ∧
    joinAll (deltasOf (executeTurn ⟨false, 2⟩ oracleOverride DEFAULT_MODEL).events) = "Hi" ∧
    joinAll (deltasOf (executeTurn ⟨false, 2⟩ oracleOverride DEFAULT_MODEL).events) ≠ "Bye" := by
  refine ⟨by decide, by decide, by decide, by decide⟩

/-- C1 (amended): for every turn that completes successfully, the
concatenation of the `text-delta` payloads equals the concatenation of all
fragments enqueued to the drain loop across every helper invocation of the
turn, failed attempts included (`pendingAll`); and it equals the assistant
text persisted via `appendAssistantCompletion` provided the turn's first
helper invocation succeeds and none of that invocation's `final` events
replaces the accumulated token text. -/
theorem c1_concat_corrected (cfg : ExecConfig) (oracle : ScriptOracle) (model : String)
    (hf : 1 ≤ cfg.tokensPerFlush) :
    ((executeTurn cfg oracle model).errorThrown = none →
      joinAll (deltasOf (executeTurn cfg oracle model).events) =
        joinAll (executeTurn cfg oracle model).pendingAll) ∧
    (∀ res : ScriptResult,
      (runScript (oracle 0)).2 = .ok res →
      noFinalOverride (oracle 0).events = true →
      (executeTurn cfg oracle model).errorThrown = none ∧
      (executeTurn cfg oracle model).persistedText = some res.assistantText ∧
      joinAll (deltasOf (executeTurn cfg oracle model).events) = res.assistantText) := by
  constructor
  · intro hsucc
    rcases hE : runCandidates oracle (if cfg.enableFailover then 2 else 1) TurnState.start none
        (getModelFailoverChain cfg.enableFailover model) with ⟨st, lastErr, res?⟩
    cases res? with
    | none =>
        rw [executeTurn_of_none cfg oracle model st lastErr hE] at hsucc
        dsimp only at hsucc
        cases hsucc
    | some winres =>
        rcases winres with ⟨winner, res⟩
        rw [executeTurn_of_some cfg oracle model st lastErr winner res hE]
        dsimp only
        rw [deltasOf_shape, drainClosed_join cfg.tokensPerFlush hf]
  · intro res hok hno
    rcases hch : getModelFailoverChain cfg.enableFailover model with _ | ⟨c, rest⟩
    · exact absurd hch (getModelFailoverChain_ne_nil cfg.enableFailover model)
    · have hrun : runCandidates oracle (if cfg.enableFailover then 2 else 1) TurnState.start none
          (getModelFailoverChain cfg.enableFailover model) =
          ({ callIdx := 1,
             calls := [{ model := c, streaming := true, result := .ok res }],
             pending := enqueueAll [] (runScript (oracle 0)).1,
             sawTokenEvent := !(runScript (oracle 0)).1.isEmpty,
             backoffs := [] }, none, some (c, res)) := by
        rw [hch]
        exact runCandidates_first_success oracle _ c rest res hok
      have hexec := executeTurn_of_some cfg oracle model _ none c res hrun
      have hemit : (runScript (oracle 0)).1 = (runScriptState (oracle 0).events).emitted := rfl
      have hclose : closeScript (runScriptState (oracle 0).events) (oracle 0).exitCode
          (oracle 0).stderr = .ok res := hok
      obtain ⟨htext, _hfr, htrim⟩ := closeScript_ok _ _ _ _ hclose
      have hacc : res.assistantText = joinAll (runScript (oracle 0)).1 := by
        rw [hemit, htext]
        exact assistantText_of_noFinalOverride (oracle 0).events hno
      have hcond : (!(!(runScript (oracle 0)).1.isEmpty) &&
          decide (res.assistantText ≠ "")) = false := by
        cases hie : (runScript (oracle 0)).1.isEmpty
        · simp [hie]
        · have : (runScript (oracle 0)).1 = [] := List.isEmpty_iff.mp hie
          rw [hacc, this, joinAll_nil]
          simp
      have hjoin2 : joinAll (enqueueAll [] (runScript (oracle 0)).1) = res.assistantText := by
        rw [joinAll_enqueueAll, joinAll_nil, string_empty_append, hacc]
      have htrim2 : jsTrim res.assistantText ≠ "" := by rw [htext]; exact htrim
      rw [hexec]
      dsimp only
      simp only [hcond, Bool.false_eq_true, if_false]
      refine ⟨?_, ?_, ?_⟩
      · trivial
      · rw [if_pos htrim2]
      · rw [deltasOf_shape, drainClosed_join cfg.tokensPerFlush hf, hjoin2]

/-- Witness for the amended C1, at a turn with a failed attempt and at a
plain successful turn: with failover enabled, candidate 1 streams `Hel` and
exits 1, candidate 2 streams `Hello` and succeeds — the delta concatenation
equals the concatenation of everything enqueued (`HelHello`, the failed
attempt's fragment included) while the persisted text is `Hello`; and when
the first invocation streams `Hi`/` there` and succeeds with no overriding
final event, the persisted text and the delta concatenation are both
`Hi there`. -/
theorem c1_concat_witness :
    (executeTurn ⟨true, 2⟩ oracleFailThenOk DEFAULT_MODEL).errorThrown = none ∧
    (executeTurn ⟨true, 2⟩ oracleFailThenOk DEFAULT_MODEL).calls =
      [{ model := DEFAULT_MODEL, streaming := true, result := .error "boom" },
       { model := RELIABLE_FALLBACK_MODEL, streaming := true,
         result := .ok ⟨"Hello", .stop⟩ }] ∧
    joinAll (deltasOf (executeTurn ⟨true, 2⟩ oracleFailThenOk DEFAULT_MODEL).events) =
      joinAll (executeTurn ⟨true, 2⟩ oracleFailThenOk DEFAULT_MODEL).pendingAll ∧
    (executeTurn ⟨true, 2⟩ oracleFailThenOk DEFAULT_MODEL).pendingAll = ["Hel", "Hello"] ∧
    joinAll (deltasOf (executeTurn ⟨true, 2⟩ oracleFailThenOk DEFAULT_MODEL).events) =
      "HelHello" ∧
    (executeTurn ⟨true, 2⟩ oracleFailThenOk DEFAULT_MODEL).persistedText = some "Hello" ∧
    (executeTurn ⟨false, 2⟩ oracleHiThere DEFAULT_MODEL).persistedText = some "Hi there" ∧
    joinAll (deltasOf (executeTurn ⟨false, 2⟩ oracleHiThere DEFAULT_MODEL).events) =
      "Hi there" := by
  refine ⟨by decide, by decide,
    (c1_concat_corrected ⟨true, 2⟩ oracleFailThenOk DEFAULT_MODEL (by decide)).1 (by decide),
    by decide, by decide, by decide, ?_, ?_⟩
  · exact ((c1_concat_corrected ⟨false, 2⟩ oracleHiThere DEFAULT_MODEL (by decide)).2
      ⟨"Hi there", .stop⟩ (by decide) (by decide)).2.1
  · exact ((c1_concat_corrected ⟨false, 2⟩ oracleHiThere DEFAULT_MODEL (by decide)).2
      ⟨"Hi there", .stop⟩ (by decide) (by decide)).2.2

end Route

namespace Route

open HeavyFingers

/-- C5: evaluation of the code at the failing input.  Model failover is
enabled; the client aborts during candidate 1's streaming, killing the helper
(exit code `null`, generic kill error, not retryable).  The candidate loop
then spawns candidate 2 with the *already aborted* signal — whose `abort`
listener never fires, because `AbortSignal` only dispatches `abort` at abort
time — so that helper runs to completion, its text is persisted, and the
terminal events are written.  The claim says an aborted turn persists nothing
and makes no further attempts; only its lock-release part holds. -/
theorem c5_abort_code_bug :
    (executeTurn ⟨true, 2⟩ oracleAbort DEFAULT_MODEL).persistedText = some "Hello" ∧
    (executeTurn ⟨true, 2⟩ oracleAbort DEFAULT_MODEL).calls =
      [{ model := DEFAULT_MODEL, streaming := true,
         result := .error "askQuestion.py exited with code unknown." },
       { model := RELIABLE_FALLBACK_MODEL, streaming := true,
         result := .ok ⟨"Hello", .stop⟩ }] ∧
    (executeTurn ⟨true, 2⟩ oracleAbort DEFAULT_MODEL).errorThrown = none ∧
    (executeTurn ⟨true, 2⟩ oracleAbort DEFAULT_MODEL).lockReleased = true := by
  refine ⟨by decide, by decide, by decide, by decide⟩

theorem runScriptState_spec (events : List AskEvent) :
    (runScriptState events).assistantText = specAccumText events ∧
    (runScriptState events).reportedError = specReportedError events ∧
    (runScriptState events).finishReason = specFinishReason events ∧
    (runScriptState events).emitted = specTokens events := by
  induction events using List.reverseRecOn with
  | nil => exact ⟨rfl, rfl, rfl, rfl⟩
  | append_singleton init e ih =>
      obtain ⟨ha, hr, hf, he⟩ := ih
      have hfold : runScriptState (init ++ [e]) = consumeEvent (runScriptState init) e := by
        simp [runScriptState, List.foldl_append]
      have hrev : (init ++ [e]).reverse = e :: init.reverse := by
        simp
      refine ⟨?_, ?_, ?_, ?_⟩
      · show (runScriptState (init ++ [e])).assistantText = specAccumTextRev (init ++ [e]).reverse
        rw [hfold, hrev]
        cases e with
        | token tok => simp [consumeEvent, specAccumTextRev, ha, specAccumText]
        | final text fr =>
            cases text with
            | none => cases fr <;> simp [consumeEvent, specAccumTextRev, ha, specAccumText]
            | some t =>
                by_cases ht : t.length > 0
                · cases fr <;> simp [consumeEvent, specAccumTextRev, ht, specAccumText]
                · cases fr <;> simp [consumeEvent, specAccumTextRev, ht, ha, specAccumText]
        | errorEv m =>
            by_cases hm : jsTrim m ≠ ""
            · simp [consumeEvent, specAccumTextRev, hm, ha, specAccumText]
            · simp [consumeEvent, specAccumTextRev, hm, ha, specAccumText]
        | other => simp [consumeEvent, specAccumTextRev, ha, specAccumText]
      · show (runScriptState (init ++ [e])).reportedError =
          (init ++ [e]).reverse.findSome? _
        rw [hfold, hrev]
        cases e with
        | token tok => simp [consumeEvent, List.findSome?_cons, hr, specReportedError]
        | final text fr =>
            cases text with
            | none => cases fr <;> simp [consumeEvent, List.findSome?_cons, hr, specReportedError]
            | some t =>
                by_cases ht : t.length > 0 <;>
                  cases fr <;> simp [consumeEvent, List.findSome?_cons, ht, hr, specReportedError]
        | errorEv m =>
            by_cases hm : jsTrim m ≠ ""
            · simp [consumeEvent, List.findSome?_cons, hm, hr, specReportedError]
            · simp [consumeEvent, List.findSome?_cons, hm, hr, specReportedError]
        | other => simp [consumeEvent, List.findSome?_cons, hr, specReportedError]
      · show (runScriptState (init ++ [e])).finishReason = specFinishReason (init ++ [e])
        rw [hfold]
        unfold specFinishReason
        rw [hrev]
        cases e with
        | token tok =>
            simp only [List.findSome?_cons]
            simpa [consumeEvent, specFinishReason] using hf
        | final text fr =>
            cases fr with
            | some r =>
                cases text with
                | none => simp [consumeEvent, List.findSome?_cons]
                | some t => by_cases ht : t.length > 0 <;> simp [consumeEvent, List.findSome?_cons, ht]
            | none =>
                cases text with
                | none =>
                    simp only [List.findSome?_cons]
                    simpa [consumeEvent, specFinishReason] using hf
                | some t =>
                    by_cases ht : t.length > 0 <;>
                      · simp only [List.findSome?_cons]
                        simpa [consumeEvent, specFinishReason, ht] using hf
        | errorEv m =>
            by_cases hm : jsTrim m ≠ "" <;>
              · simp only [List.findSome?_cons]
                simpa [consumeEvent, specFinishReason, hm] using hf
        | other =>
            simp only [List.findSome?_cons]
            simpa [consumeEvent, specFinishReason] using hf
      · show (runScriptState (init ++ [e])).emitted = specTokens (init ++ [e])
        rw [hfold]
        unfold specTokens
        rw [List.filterMap_append]
        cases e with
        | token tok => simp [consumeEvent, he, specTokens]
        | final text fr =>
            cases text with
            | none => cases fr <;> simp [consumeEvent, he, specTokens]
            | some t =>
                by_cases ht : t.length > 0 <;>
                  cases fr <;> simp [consumeEvent, ht, he, specTokens]
        | errorEv m =>
            by_cases hm : jsTrim m ≠ "" <;> simp [consumeEvent, hm, he, specTokens]
        | other => simp [consumeEvent, he, specTokens]

end Route

namespace Route

open HeavyFingers

/-- C6 counterexample: a helper run that exits 0 having accumulated the
single whitespace token `" "` — a *non-empty* accumulated text, so the
claim's final "otherwise it resolves" case applies — is nevertheless rejected
with the empty-response error, because the source tests
`!assistantText.trim()`. -/
theorem c6_close_counterexample :
    (runScriptState [AskEvent.token " "]).assistantText = " " ∧
    (" " : String) ≠ "" ∧
    (runScript ⟨[AskEvent.token " "], some 0, ""⟩).2 =
      .error "askQuestion.py returned an empty assistant response." := by
  refine ⟨by decide, by decide, by decide⟩

/-- C6 (amended): on process exit, the helper call settles by this case
analysis — the last `error` event with a non-blank message wins; otherwise a
non-zero (or null) exit code fails with the trimmed stderr text or a generic
exit-code message; otherwise an accumulated text that is empty *or
whitespace-only* (including an exit-0 run with no token/final events and
empty stdout) fails with the empty-response error; otherwise the call
resolves with the accumulated text and finish reason. -/
theorem c6_close_corrected (events : List AskEvent) (code : Option Int) (stderr : String) :
    ((runScript ⟨events, code, stderr⟩).2 =
      match specReportedError events with
      | some msg => .error msg
      | none =>
          if code ≠ some 0 then
            .error (if jsTrim stderr ≠ "" then jsTrim stderr
              else
                let codeText := exitCodeText code
                s!"askQuestion.py exited with code {codeText}.")
          else if jsTrim (specAccumText events) = "" then
            .error "askQuestion.py returned an empty assistant response."
          else .ok ⟨specAccumText events, specFinishReason events⟩) ∧
    (runScript ⟨[], some 0, ""⟩).2 =
      .error "askQuestion.py returned an empty assistant response." := by
  constructor
  · obtain ⟨ha, hr, hf, _⟩ := runScriptState_spec events
    show closeScript (runScriptState events) code stderr = _
    unfold closeScript
    rw [ha, hr, hf]
  · decide

end Route

namespace Route

open HeavyFingers

/-- C7: the POST chat handler maps failures to HTTP responses: a missing or
placeholder credential yields 500 with the credential message regardless of
store and payload; an unresolved conversation id in the store (ENOENT) yields
404 with the exact body naming the sanitized id; a payload with no non-empty
user message yields 400; any other store/backend rejection before streaming
yields 500 with the sanitized `toClientError` message. -/
theorem c7_post_mapping (cfg : ExecConfig) (env : PostEnv) (store : StoreResult)
    (req : PostRequest) (oracle : ScriptOracle) :
    (missingApiKey env.dedalusApiKey = true →
      POSTmodel cfg env store req oracle =
        .json 500
          "Missing or invalid DEDALUS_API_KEY. Set a valid key and restart the server.") ∧
    (∀ convId : String, missingApiKey env.dedalusApiKey = false →
      resolvedConversationId env req = some convId →
      store = .enoent →
      POSTmodel cfg env store req oracle =
        .json 404 ("Conversation \"" ++ convId ++ "\" was not found.")) ∧
    (∀ (convId persistedId : String), missingApiKey env.dedalusApiKey = false →
      resolvedConversationId env req = some convId →
      store = .ok persistedId →
      getLatestUserMessage req.messages = none →
      POSTmodel cfg env store req oracle =
        .json 400 "No user message found in chat payload.") ∧
    (∀ (convId msg : String), missingApiKey env.dedalusApiKey = false →
      resolvedConversationId env req = some convId →
      store = .otherError msg →
      POSTmodel cfg env store req oracle = .json 500 (toClientError msg)) := by
  refine ⟨?_, ?_, ?_, ?_⟩
  · intro hk
    simp [POSTmodel, hk]
  · intro convId hk hres hstore
    subst hstore
    simp [POSTmodel, hk, hres]
  · intro convId persistedId hk hres hstore hmsg
    subst hstore
    simp [POSTmodel, hk, hres, hmsg]
  · intro convId msg hk hres hstore
    subst hstore
    simp [POSTmodel, hk, hres]

/-- Witness for C7: each of the four mappings at a concrete request. -/
theorem c7_post_mapping_witness :
    POSTmodel ⟨false, 2⟩ ⟨none, none, none⟩ (.ok "abc123") ⟨[], none, none, none⟩ oracleHi =
      .json 500
        "Missing or invalid DEDALUS_API_KEY. Set a valid key and restart the server." ∧
    POSTmodel ⟨false, 2⟩ ⟨some "k", none, none⟩ .enoent
      ⟨[], some "abc123", none, none⟩ oracleHi =
      .json 404 "Conversation \"abc123\" was not found." ∧
    POSTmodel ⟨false, 2⟩ ⟨some "k", none, none⟩ (.ok "abc123")
      ⟨[], some "abc123", none, none⟩ oracleHi =
      .json 400 "No user message found in chat payload." ∧
    POSTmodel ⟨false, 2⟩ ⟨some "k", none, none⟩ (.otherError "boom")
      ⟨[], some "abc123", none, none⟩ oracleHi =
      .json 500 (toClientError "boom") := by
  refine ⟨?_, ?_, ?_, ?_⟩
  · exact (c7_post_mapping ⟨false, 2⟩ ⟨none, none, none⟩ (.ok "abc123")
      ⟨[], none, none, none⟩ oracleHi).1 (by decide)
  · exact (c7_post_mapping ⟨false, 2⟩ ⟨some "k", none, none⟩ .enoent
      ⟨[], some "abc123", none, none⟩ oracleHi).2.1 "abc123" (by decide) (by decide) rfl
  · exact (c7_post_mapping ⟨false, 2⟩ ⟨some "k", none, none⟩ (.ok "abc123")
      ⟨[], some "abc123", none, none⟩ oracleHi).2.2.1 "abc123" "abc123"
      (by decide) (by decide) rfl (by decide)
  · exact (c7_post_mapping ⟨false, 2⟩ ⟨some "k", none, none⟩ (.otherError "boom")
      ⟨[], some "abc123", none, none⟩ oracleHi).2.2.2 "abc123" "boom"
      (by decide) (by decide) rfl

end Route

namespace Route

open HeavyFingers

theorem attemptOnce_spec (oracle : ScriptOracle) (st : TurnState) (model : String) :
    ∃ newCalls,
      (attemptOnce oracle st model).1.calls = st.calls ++ newCalls ∧
      (attemptOnce oracle st model).1.backoffs = st.backoffs ∧
      (match (attemptOnce oracle st model).2 with
       | .ok res => AttemptSuccess model newCalls res
       | .error e => AttemptCalls model newCalls e) := by
  unfold attemptOnce invoke
  rcases hr : runScript (oracle st.callIdx) with ⟨em, r⟩
  simp only [hr]
  cases r with
  | ok res =>
      exact ⟨[{ model := model, streaming := true, result := .ok res }], by simp, by simp,
        AttemptSuccess.direct res⟩
  | error e =>
      by_cases hsr : shouldRetryWithoutScriptStreaming e = true
      · simp only [hsr, Bool.not_true, Bool.false_eq_true, if_false]
        rcases hr2 : runScript (oracle (st.callIdx + 1)) with ⟨em2, r2⟩
        simp only [hr2]
        cases r2 with
        | ok res2 =>
            exact ⟨[{ model := model, streaming := true, result := .error e },
              { model := model, streaming := false, result := .ok res2 }], by simp, by simp,
              AttemptSuccess.bufferedRetry e res2 hsr⟩
        | error e2 =>
            exact ⟨[{ model := model, streaming := true, result := .error e },
              { model := model, streaming := false, result := .error e2 }], by simp, by simp,
              AttemptCalls.bufferedRetry e e2 hsr⟩
      · have hsr' : shouldRetryWithoutScriptStreaming e = false := by
          simpa using hsr
        simp only [hsr', Bool.not_false, if_true]
        exact ⟨[{ model := model, streaming := true, result := .error e }], by simp, by simp,
          AttemptCalls.direct e hsr'⟩

theorem candidateAttemptsFuel_spec (oracle : ScriptOracle) (model : String) :
    ∀ fuel attempt st,
      ∃ newCalls newBacks,
        (candidateAttemptsFuel oracle model attempt fuel st).1.calls = st.calls ++ newCalls ∧
        (candidateAttemptsFuel oracle model attempt fuel st).1.backoffs =
          st.backoffs ++ newBacks ∧
        CandidateRun model (attempt + fuel) attempt newCalls newBacks
          (candidateAttemptsFuel oracle model attempt fuel st).2 := by
  intro fuel
  induction fuel with
  | zero =>
      intro attempt st
      obtain ⟨nc, hc, hb, hrel⟩ := attemptOnce_spec oracle st model
      unfold candidateAttemptsFuel
      rcases hA : attemptOnce oracle st model with ⟨st1, r⟩
      rw [hA] at hc hb hrel
      simp only [hA]
      cases r with
      | ok res =>
          exact ⟨nc, [], by simpa using hc, by simpa using hb,
            CandidateRun.success attempt nc res (by simpa using hrel)⟩
      | error e =>
          exact ⟨nc, [], by simpa using hc, by simpa using hb,
            CandidateRun.failStop attempt nc e (by simpa using hrel)
              (Or.inr (by omega))⟩
  | succ fuel ih =>
      intro attempt st
      obtain ⟨nc, hc, hb, hrel⟩ := attemptOnce_spec oracle st model
      unfold candidateAttemptsFuel
      rcases hA : attemptOnce oracle st model with ⟨st1, r⟩
      rw [hA] at hc hb hrel
      simp only [hA]
      cases r with
      | ok res =>
          exact ⟨nc, [], by simpa using hc, by simpa using hb,
            CandidateRun.success attempt nc res (by simpa using hrel)⟩
      | error e =>
          by_cases hrt : isRetryableDedalusServerError e = true
          · simp only [hrt, if_true]
            obtain ⟨nc2, nb2, h2c, h2b, h2rel⟩ :=
              ih (attempt + 1) { st1 with backoffs := st1.backoffs ++ [300 * attempt] }
            have hmx : attempt + 1 + fuel = attempt + (fuel + 1) := by omega
            rw [hmx] at h2rel
            refine ⟨nc ++ nc2, 300 * attempt :: nb2, ?_, ?_, ?_⟩
            · rw [h2c]
              simp only at hc
              rw [hc, List.append_assoc]
            · rw [h2b]
              simp only at hb
              rw [hb, List.append_assoc]
              simp
            · exact CandidateRun.failRetry attempt nc e nc2 nb2 _
                (by simpa using hrel) hrt (by omega) h2rel
          · have hrt' : isRetryableDedalusServerError e = false := by simpa using hrt
            simp only [hrt', Bool.false_eq_true, if_false]
            exact ⟨nc, [], by simpa using hc, by simpa using hb,
              CandidateRun.failStop attempt nc e (by simpa using hrel) (Or.inl hrt')⟩

end Route

namespace Route

open HeavyFingers

theorem AttemptCalls_last {model : String} {calls : List CallRecord} {e : String}
    (h : AttemptCalls model calls e) :
    ∃ c, calls.getLast? = some c ∧ c.result = .error e := by
  cases h with
  | direct e h1 => exact ⟨_, rfl, rfl⟩
  | bufferedRetry e1 e2 h1 => exact ⟨_, rfl, rfl⟩

theorem AttemptCalls_ne_nil {model : String} {calls : List CallRecord} {e : String}
    (h : AttemptCalls model calls e) : calls ≠ [] := by
  cases h <;> simp

theorem AttemptSuccess_ne_nil {model : String} {calls : List CallRecord} {res : ScriptResult}
    (h : AttemptSuccess model calls res) : calls ≠ [] := by
  cases h <;> simp

theorem CandidateRun_ne_nil {model : String} {maxA a : Nat} {calls : List CallRecord}
    {backs : List Nat} {out : Except String ScriptResult}
    (h : CandidateRun model maxA a calls backs out) : calls ≠ [] := by
  induction h with
  | success a calls res hs => exact AttemptSuccess_ne_nil hs
  | failStop a calls e hc _ => exact AttemptCalls_ne_nil hc
  | failRetry a calls e rest backs out hc _ _ _ _ =>
      have := AttemptCalls_ne_nil hc
      simp [this]

theorem CandidateRun_error_last {model : String} {maxA a : Nat} {calls : List CallRecord}
    {backs : List Nat} {out : Except String ScriptResult}
    (h : CandidateRun model maxA a calls backs out) :
    ∀ e, out = .error e → ∃ c, calls.getLast? = some c ∧ c.result = .error e := by
  induction h with
  | success a calls res hs => intro e he; cases he
  | failStop a calls e0 hc _ =>
      intro e he
      injection he with he
      subst he
      exact AttemptCalls_last hc
  | failRetry a calls e0 rest backs out hc _ _ hrec ih =>
      intro e he
      obtain ⟨c, hlast, hres⟩ := ih e he
      have hne : rest ≠ [] := CandidateRun_ne_nil hrec
      exact ⟨c, by rw [List.getLast?_append_of_ne_nil _ hne]; exact hlast, hres⟩

theorem runCandidates_spec (oracle : ScriptOracle) (maxA : Nat) (hmx : 1 ≤ maxA) :
    ∀ chain st lastErr,
      ∃ newCalls newBacks,
        (runCandidates oracle maxA st lastErr chain).1.calls = st.calls ++ newCalls ∧
        (runCandidates oracle maxA st lastErr chain).1.backoffs = st.backoffs ++ newBacks ∧
        ChainRun maxA chain newCalls newBacks
          (runCandidates oracle maxA st lastErr chain).2.2 ∧
        ((runCandidates oracle maxA st lastErr chain).2.2 = none →
          (newCalls = [] ∧ (runCandidates oracle maxA st lastErr chain).2.1 = lastErr) ∨
          (∃ e c, (runCandidates oracle maxA st lastErr chain).2.1 = some e ∧
            newCalls.getLast? = some c ∧ c.result = .error e)) := by
  intro chain
  induction chain with
  | nil =>
      intro st lastErr
      exact ⟨[], [], by simp [runCandidates], by simp [runCandidates],
        ChainRun.exhausted, fun _ => Or.inl ⟨rfl, rfl⟩⟩
  | cons model rest ih =>
      intro st lastErr
      obtain ⟨nc, nb, hc, hb, hrel⟩ := candidateAttemptsFuel_spec oracle model (maxA - 1) 1 st
      have hfix : 1 + (maxA - 1) = maxA := by omega
      rw [hfix] at hrel
      unfold runCandidates
      rcases hA : candidateAttempts oracle st model maxA with ⟨st1, r⟩
      have hA' : candidateAttemptsFuel oracle model 1 (maxA - 1) st = (st1, r) := hA
      rw [hA'] at hc hb hrel
      simp only [hA]
      cases r with
      | ok res =>
          exact ⟨nc, nb, hc, hb, ChainRun.firstSucceeds model rest nc nb res hrel,
            fun hnone => by cases hnone⟩
      | error e =>
          obtain ⟨nc2, nb2, h2c, h2b, h2rel, h2last⟩ := ih st1 (some e)
          refine ⟨nc ++ nc2, nb ++ nb2, ?_, ?_, ?_, ?_⟩
          · rw [h2c, hc, List.append_assoc]
          · rw [h2b, hb, List.append_assoc]
          · exact ChainRun.advance model rest nc nb e nc2 nb2 _ hrel h2rel
          · intro hnone
            rcases h2last hnone with ⟨hempty, hlast⟩ | ⟨e2, c2, hsome, hlast2, hres2⟩
            · subst hempty
              obtain ⟨c, hcl, hce⟩ := CandidateRun_error_last hrel e rfl
              exact Or.inr ⟨e, c, hlast, by simpa using hcl, hce⟩
            · have hne2 : nc2 ≠ [] := by
                intro hn
                rw [hn] at hlast2
                cases hlast2
              exact Or.inr ⟨e2, c2, hsome,
                by rw [List.getLast?_append_of_ne_nil _ hne2]; exact hlast2, hres2⟩

end Route

namespace Route

open HeavyFingers

theorem BlocksOk_append {a b : List CallRecord} (ha : BlocksOk a) (hb : BlocksOk b) :
    BlocksOk (a ++ b) := by
  induction ha with
  | nil => exact hb
  | okStream m res rest _ ih => exact BlocksOk.okStream m res _ ih
  | errStream m e rest hsr _ ih => exact BlocksOk.errStream m e _ hsr ih
  | bufferedPair m e r2 rest hsr _ ih => exact BlocksOk.bufferedPair m e r2 _ hsr ih

theorem AttemptSuccess_blocks {model : String} {calls : List CallRecord} {res : ScriptResult}
    (h : AttemptSuccess model calls res) {rest : List CallRecord} (hr : BlocksOk rest) :
    BlocksOk (calls ++ rest) := by
  cases h with
  | direct res => exact BlocksOk.okStream model res rest hr
  | bufferedRetry e res hsr => exact BlocksOk.bufferedPair model e (.ok res) rest hsr hr

theorem AttemptCalls_blocks {model : String} {calls : List CallRecord} {e : String}
    (h : AttemptCalls model calls e) {rest : List CallRecord} (hr : BlocksOk rest) :
    BlocksOk (calls ++ rest) := by
  cases h with
  | direct e0 hsr => exact BlocksOk.errStream model e rest hsr hr
  | bufferedRetry e1 e2 hsr => exact BlocksOk.bufferedPair model e1 (.error e) rest hsr hr

theorem CandidateRun_blocks {model : String} {maxA a : Nat} {calls : List CallRecord}
    {backs : List Nat} {out : Except String ScriptResult}
    (h : CandidateRun model maxA a calls backs out) : BlocksOk calls := by
  induction h with
  | success a calls res hs =>
      have := AttemptSuccess_blocks hs BlocksOk.nil
      simpa using this
  | failStop a calls e hc _ =>
      have := AttemptCalls_blocks hc BlocksOk.nil
      simpa using this
  | failRetry a calls e rest backs out hc _ _ _ ih =>
      exact AttemptCalls_blocks hc ih

theorem ChainRun_blocks {maxA : Nat} {chain : List String} {calls : List CallRecord}
    {backs : List Nat} {out : Option (String × ScriptResult)}
    (h : ChainRun maxA chain calls backs out) : BlocksOk calls := by
  induction h with
  | exhausted => exact BlocksOk.nil
  | firstSucceeds model rest calls backs res hc => exact CandidateRun_blocks hc
  | advance model rest calls backs e calls2 backs2 out hc _ ih =>
      exact BlocksOk_append (CandidateRun_blocks hc) ih

theorem BlocksOk_nonstream_prev {l : List CallRecord} (h : BlocksOk l) :
    ∀ i c, l[i]? = some c → c.streaming = false →
      1 ≤ i ∧ ∃ cp e, l[i - 1]? = some cp ∧ cp.streaming = true ∧ cp.model = c.model ∧
        cp.result = .error e ∧ shouldRetryWithoutScriptStreaming e = true := by
  induction h with
  | nil => intro i c hi _; simp at hi
  | okStream m res rest _ ih =>
      intro i c hi hs
      cases i with
      | zero =>
          simp only [List.getElem?_cons_zero, Option.some.injEq] at hi
          rw [← hi] at hs
          cases hs
      | succ j =>
          obtain ⟨h1, cp, e, hcp, hrest⟩ := ih j c (by simpa using hi) hs
          cases j with
          | zero => omega
          | succ k =>
              exact ⟨by omega, cp, e, by simpa using hcp, hrest⟩
  | errStream m e0 rest _ _ ih =>
      intro i c hi hs
      cases i with
      | zero =>
          simp only [List.getElem?_cons_zero, Option.some.injEq] at hi
          rw [← hi] at hs
          cases hs
      | succ j =>
          obtain ⟨h1, cp, e, hcp, hrest⟩ := ih j c (by simpa using hi) hs
          cases j with
          | zero => omega
          | succ k =>
              exact ⟨by omega, cp, e, by simpa using hcp, hrest⟩
  | bufferedPair m e0 r2 rest hsr _ ih =>
      intro i c hi hs
      cases i with
      | zero =>
          simp only [List.getElem?_cons_zero, Option.some.injEq] at hi
          rw [← hi] at hs
          cases hs
      | succ j =>
          cases j with
          | zero =>
              simp only [List.getElem?_cons_succ, List.getElem?_cons_zero,
                Option.some.injEq] at hi
              refine ⟨by omega, { model := m, streaming := true, result := .error e0 }, e0,
                by simp, rfl, ?_, rfl, hsr⟩
              rw [← hi]
          | succ k =>
              obtain ⟨h1, cp, e, hcp, hrest⟩ := ih k c (by simpa using hi) hs
              cases k with
              | zero => omega
              | succ k2 =>
                  exact ⟨by omega, cp, e, by simpa using hcp, hrest⟩

theorem BlocksOk_stream_retry_next {l : List CallRecord} (h : BlocksOk l) :
    ∀ i c e, l[i]? = some c → c.streaming = true → c.result = .error e →
      shouldRetryWithoutScriptStreaming e = true →
      ∃ cn, l[i + 1]? = some cn ∧ cn.streaming = false ∧ cn.model = c.model := by
  induction h with
  | nil => intro i c e hi _ _ _; simp at hi
  | okStream m res rest _ ih =>
      intro i c e hi hs hr hsr
      cases i with
      | zero =>
          simp only [List.getElem?_cons_zero, Option.some.injEq] at hi
          rw [← hi] at hr
          cases hr
      | succ j =>
          obtain ⟨cn, hcn, hns, hm⟩ := ih j c e (by simpa using hi) hs hr hsr
          exact ⟨cn, by simpa using hcn, hns, hm⟩
  | errStream m e0 rest hsr0 _ ih =>
      intro i c e hi hs hr hsr
      cases i with
      | zero =>
          simp only [List.getElem?_cons_zero, Option.some.injEq] at hi
          subst hi
          have hr2 : (Except.error e0 : Except String ScriptResult) = .error e := hr
          injection hr2 with hr2
          rw [hr2] at hsr0
          rw [hsr0] at hsr
          cases hsr
      | succ j =>
          obtain ⟨cn, hcn, hns, hm⟩ := ih j c e (by simpa using hi) hs hr hsr
          exact ⟨cn, by simpa using hcn, hns, hm⟩
  | bufferedPair m e0 r2 rest hsr0 _ ih =>
      intro i c e hi hs hr hsr
      cases i with
      | zero =>
          simp only [List.getElem?_cons_zero, Option.some.injEq] at hi
          refine ⟨{ model := m, streaming := false, result := r2 }, by simp, rfl, ?_⟩
          rw [← hi]
      | succ j =>
          cases j with
          | zero =>
              simp only [List.getElem?_cons_succ, List.getElem?_cons_zero,
                Option.some.injEq] at hi
              rw [← hi] at hs
              cases hs
          | succ k =>
              obtain ⟨cn, hcn, hns, hm⟩ := ih k c e (by simpa using hi) hs hr hsr
              exact ⟨cn, by simpa using hcn, hns, hm⟩

end Route

namespace Route

open HeavyFingers

theorem executeTurn_calls_blocks (cfg : ExecConfig) (oracle : ScriptOracle) (model : String) :
    BlocksOk (executeTurn cfg oracle model).calls := by
  have hmx : 1 ≤ (if cfg.enableFailover then 2 else 1) := by split <;> omega
  obtain ⟨nc, nb, hc, hb, hrel, _⟩ := runCandidates_spec oracle _ hmx
    (getModelFailoverChain cfg.enableFailover model) TurnState.start none
  rcases hE : runCandidates oracle (if cfg.enableFailover then 2 else 1) TurnState.start none
      (getModelFailoverChain cfg.enableFailover model) with ⟨st, lastErr, res?⟩
  rw [hE] at hc hrel
  simp only [TurnState.start, List.nil_append] at hc
  cases res? with
  | none =>
      rw [executeTurn_of_none cfg oracle model st lastErr hE]
      show BlocksOk st.calls
      rw [hc]
      exact ChainRun_blocks hrel
  | some winres =>
      rcases winres with ⟨winner, res⟩
      rw [executeTurn_of_some cfg oracle model st lastErr winner res hE]
      show BlocksOk st.calls
      rw [hc]
      exact ChainRun_blocks hrel

/-- C8: in every turn, a backend invocation with streaming disabled occurs
exactly when the immediately preceding invocation was a streaming call on the
same candidate that failed with an empty/invalid-response error
(`shouldRetryWithoutScriptStreaming`); and every streaming call failing with
such an error is followed by exactly one buffered retry of the same
candidate.  Errors of any other kind never trigger the buffered retry. -/
theorem c8_buffered_retry (cfg : ExecConfig) (oracle : ScriptOracle) (model : String) :
    (∀ i c, (executeTurn cfg oracle model).calls[i]? = some c → c.streaming = false →
      1 ≤ i ∧ ∃ cp e, (executeTurn cfg oracle model).calls[i - 1]? = some cp ∧
        cp.streaming = true ∧ cp.model = c.model ∧ cp.result = .error e ∧
        shouldRetryWithoutScriptStreaming e = true) ∧
    (∀ i c e, (executeTurn cfg oracle model).calls[i]? = some c → c.streaming = true →
      c.result = .error e → shouldRetryWithoutScriptStreaming e = true →
      ∃ cn, (executeTurn cfg oracle model).calls[i + 1]? = some cn ∧
        cn.streaming = false ∧ cn.model = c.model) := by
  have hB := executeTurn_calls_blocks cfg oracle model
  exact ⟨fun i c hi hs => BlocksOk_nonstream_prev hB i c hi hs,
    fun i c e hi hs hr hsr => BlocksOk_stream_retry_next hB i c e hi hs hr hsr⟩

/-- Witness for C8: a first spawn that exits 0 with no output fails with the
empty-response error and is followed by the buffered (non-streaming) retry of
the same model. -/
theorem c8_buffered_retry_witness :
    ∃ cn, (executeTurn ⟨false, 2⟩ oracleEmptyThenOk DEFAULT_MODEL).calls[0 + 1]? = some cn ∧
      cn.streaming = false ∧ cn.model = DEFAULT_MODEL :=
  (c8_buffered_retry ⟨false, 2⟩ oracleEmptyThenOk DEFAULT_MODEL).2 0
    { model := DEFAULT_MODEL, streaming := true,
      result := .error "askQuestion.py returned an empty assistant response." }
    "askQuestion.py returned an empty assistant response."
    (by decide) rfl rfl (by decide)

end Route

namespace Route

open HeavyFingers

theorem chain_disabled (pm : String) :
    getModelFailoverChain false pm =
      (if allowedModel pm then [pm] else [DEFAULT_MODEL]) := by
  simp [getModelFailoverChain]

theorem chain_enabled (pm : String) :
    getModelFailoverChain true pm =
      specDedup (([pm, RELIABLE_FALLBACK_MODEL, DEFAULT_MODEL]).filter allowedModel) := by
  have hF : allowedModel RELIABLE_FALLBACK_MODEL = true := by decide
  have hD : allowedModel DEFAULT_MODEL = true := by decide
  have hDF : DEFAULT_MODEL ≠ RELIABLE_FALLBACK_MODEL := by decide
  by_cases hpm : allowedModel pm = true
  · by_cases h1 : pm = RELIABLE_FALLBACK_MODEL
    · subst h1
      decide
    · by_cases h2 : pm = DEFAULT_MODEL
      · subst h2
        decide
      · simp [getModelFailoverChain, specDedup, specDedupGo, List.foldl, hpm, h1, h2,
          hF, hD, hDF, Ne.symm h1, Ne.symm h2]
  · have hpm' : allowedModel pm = false := by simpa using hpm
    have h1 : pm ≠ RELIABLE_FALLBACK_MODEL := by
      intro h; rw [h] at hpm'; cases hpm'
    have h2 : pm ≠ DEFAULT_MODEL := by
      intro h; rw [h] at hpm'; cases hpm'
    simp [getModelFailoverChain, specDedup, specDedupGo, List.foldl, hpm', h1, h2,
      hF, hD, hDF, Ne.symm h1, Ne.symm h2]

end Route

namespace Route

open HeavyFingers

theorem specDedupGo_spec : ∀ (l seen : List String),
    (specDedupGo seen l).Nodup ∧ ∀ x ∈ specDedupGo seen l, x ∉ seen := by
  intro l
  induction l with
  | nil => intro seen; simp [specDedupGo]
  | cons x rest ih =>
      intro seen
      by_cases hx : seen.contains x = true
      · simp only [specDedupGo, hx, if_true]
        exact ih seen
      · have hx' : seen.contains x = false := by simpa using hx
        have hxmem : x ∉ seen := by simpa using hx'
        obtain ⟨hnd, hmem⟩ := ih (seen ++ [x])
        simp only [specDedupGo, hx', Bool.false_eq_true, if_false]
        constructor
        · refine List.Nodup.cons ?_ hnd
          intro hxin
          exact hmem x hxin (by simp)
        · intro y hy
          rcases List.mem_cons.mp hy with hy | hy
          · subst hy
            exact hxmem
          · intro hcon
            exact hmem y hy (by simp [hcon])

theorem getModelFailoverChain_nodup (en : Bool) (pm : String) :
    (getModelFailoverChain en pm).Nodup := by
  cases en with
  | false =>
      rw [chain_disabled]
      split <;> simp
  | true =>
      rw [chain_enabled]
      exact (specDedupGo_spec _ []).1

theorem AttemptSuccess_facts {model : String} {calls : List CallRecord} {res : ScriptResult}
    (h : AttemptSuccess model calls res) :
    (∀ c ∈ calls, c.model = model) ∧
    (calls.filter (fun c => c.streaming)).length = 1 := by
  cases h with
  | direct res =>
      refine ⟨?_, by simp⟩
      intro c hc
      simp only [List.mem_singleton] at hc
      rw [hc]
  | bufferedRetry e res hsr =>
      refine ⟨?_, by simp⟩
      intro c hc
      rcases List.mem_cons.mp hc with hc | hc
      · rw [hc]
      · simp only [List.mem_singleton] at hc
        rw [hc]

theorem AttemptCalls_facts {model : String} {calls : List CallRecord} {e : String}
    (h : AttemptCalls model calls e) :
    (∀ c ∈ calls, c.model = model) ∧
    (calls.filter (fun c => c.streaming)).length = 1 := by
  cases h with
  | direct e0 hsr =>
      refine ⟨?_, by simp⟩
      intro c hc
      simp only [List.mem_singleton] at hc
      rw [hc]
  | bufferedRetry e1 e2 hsr =>
      refine ⟨?_, by simp⟩
      intro c hc
      rcases List.mem_cons.mp hc with hc | hc
      · rw [hc]
      · simp only [List.mem_singleton] at hc
        rw [hc]

theorem CandidateRun_facts {model : String} {maxA a : Nat} {calls : List CallRecord}
    {backs : List Nat} {out : Except String ScriptResult}
    (h : CandidateRun model maxA a calls backs out) :
    (∀ c ∈ calls, c.model = model) ∧
    (calls.filter (fun c => c.streaming)).length ≤ maxA - a + 1 := by
  induction h with
  | success a calls res hs =>
      obtain ⟨hm, hcount⟩ := AttemptSuccess_facts hs
      exact ⟨hm, by omega⟩
  | failStop a calls e hc _ =>
      obtain ⟨hm, hcount⟩ := AttemptCalls_facts hc
      exact ⟨hm, by omega⟩
  | failRetry a calls e rest backs out hc _ hlt _ ih =>
      obtain ⟨hm, hcount⟩ := AttemptCalls_facts hc
      obtain ⟨ihm, ihcount⟩ := ih
      constructor
      · intro c hcmem
        rcases List.mem_append.mp hcmem with hcm | hcm
        · exact hm c hcm
        · exact ihm c hcm
      · rw [List.filter_append, List.length_append, hcount]
        omega

theorem ChainRun_models {maxA : Nat} {chain : List String} {calls : List CallRecord}
    {backs : List Nat} {out : Option (String × ScriptResult)}
    (h : ChainRun maxA chain calls backs out) :
    ∀ c ∈ calls, c.model ∈ chain := by
  induction h with
  | exhausted => simp
  | firstSucceeds model rest calls backs res hc =>
      intro c hcm
      rw [(CandidateRun_facts hc).1 c hcm]
      exact List.mem_cons_self model rest
  | advance model rest calls backs e calls2 backs2 out hc _ ih =>
      intro c hcm
      rcases List.mem_append.mp hcm with hcm | hcm
      · rw [(CandidateRun_facts hc).1 c hcm]
        exact List.mem_cons_self model rest
      · exact List.mem_cons_of_mem model (ih c hcm)

theorem ChainRun_stream_count {maxA : Nat} {chain : List String} {calls : List CallRecord}
    {backs : List Nat} {out : Option (String × ScriptResult)}
    (h : ChainRun maxA chain calls backs out) (hmx : 1 ≤ maxA) (hnd : chain.Nodup) :
    ∀ m, (calls.filter (fun c => c.model == m && c.streaming)).length ≤ maxA := by
  induction h with
  | exhausted => intro m; simp
  | firstSucceeds model rest calls backs res hc =>
      intro m
      obtain ⟨hmods, hcount⟩ := CandidateRun_facts hc
      by_cases hm : m = model
      · subst hm
        calc (calls.filter (fun c => c.model == m && c.streaming)).length
            ≤ (calls.filter (fun c => c.streaming)).length := by
              rw [← List.filter_filter]
              exact List.length_filter_le _ _
          _ ≤ maxA - 1 + 1 := hcount
          _ ≤ maxA := by omega
      · have : calls.filter (fun c => c.model == m && c.streaming) = [] := by
          rw [List.filter_eq_nil]
          intro c hcmem
          have := hmods c hcmem
          simp [this, Ne.symm hm]
        rw [this]
        simp
  | advance model rest calls backs e calls2 backs2 out hc hrest ih =>
      intro m
      obtain ⟨hmods, hcount⟩ := CandidateRun_facts hc
      have hndr : rest.Nodup := (List.nodup_cons.mp hnd).2
      have hnotin : model ∉ rest := (List.nodup_cons.mp hnd).1
      rw [List.filter_append, List.length_append]
      by_cases hm : m = model
      · subst hm
        have h2 : calls2.filter (fun c => c.model == m && c.streaming) = [] := by
          rw [List.filter_eq_nil]
          intro c hcmem
          have hcin := ChainRun_models hrest c hcmem
          have : c.model ≠ m := by
            intro hcm
            rw [hcm] at hcin
            exact hnotin hcin
          simp [this]
        rw [h2]
        have h1 : (calls.filter (fun c => c.model == m && c.streaming)).length ≤ maxA := by
          calc (calls.filter (fun c => c.model == m && c.streaming)).length
              ≤ (calls.filter (fun c => c.streaming)).length := by
                rw [← List.filter_filter]
                exact List.length_filter_le _ _
            _ ≤ maxA - 1 + 1 := hcount
            _ ≤ maxA := by omega
        simpa using h1
      · have h1 : calls.filter (fun c => c.model == m && c.streaming) = [] := by
          rw [List.filter_eq_nil]
          intro c hcmem
          have := hmods c hcmem
          simp [this, Ne.symm hm]
        rw [h1]
        simpa using ih hndr m

end Route

namespace Route

open HeavyFingers

theorem ChainRun_cons_calls_ne_nil {maxA : Nat} {c : String} {rest : List String}
    {calls : List CallRecord} {backs : List Nat} {out : Option (String × ScriptResult)}
    (h : ChainRun maxA (c :: rest) calls backs out) : calls ≠ [] := by
  cases h with
  | firstSucceeds model rest calls backs res hc => exact CandidateRun_ne_nil hc
  | advance model rest calls backs e calls2 backs2 out hc _ =>
      have := CandidateRun_ne_nil hc
      simp [this]

/-- C4: the candidate model chain is the allow-list-filtered,
first-occurrence-deduplicated `[requested, reliable fallback, default]` when
failover is enabled, and the requested-or-default singleton otherwise; the
turn's call log and backoff waits satisfy the retry-policy relation
`ChainRun` (per candidate: up to `maxAttempts` attempts, same-candidate
retries only on retryable errors with a `300 * attempt` linear backoff,
advancing to the next candidate on exhaustion, stopping at the first
success); each candidate sees at most 2 streaming attempts with failover
enabled and 1 otherwise; and when every candidate is exhausted the last
encountered error is surfaced. -/
theorem c4_failover_policy (cfg : ExecConfig) (oracle : ScriptOracle) (model pm : String) :
    (getModelFailoverChain false pm = (if allowedModel pm then [pm] else [DEFAULT_MODEL])) ∧
    (getModelFailoverChain true pm =
      specDedup (([pm, RELIABLE_FALLBACK_MODEL, DEFAULT_MODEL]).filter allowedModel)) ∧
    (∃ result, ChainRun (if cfg.enableFailover then 2 else 1)
        (getModelFailoverChain cfg.enableFailover model)
        (executeTurn cfg oracle model).calls (executeTurn cfg oracle model).backoffs result ∧
      ((executeTurn cfg oracle model).errorThrown = none ↔ result.isSome = true)) ∧
    (∀ m, ((executeTurn cfg oracle model).calls.filter
        (fun c => c.model == m && c.streaming)).length ≤
      (if cfg.enableFailover then 2 else 1)) ∧
    (∀ e, (executeTurn cfg oracle model).errorThrown = some e →
      ∃ c, (executeTurn cfg oracle model).calls.getLast? = some c ∧
        c.result = .error e) := by
  have hmx : 1 ≤ (if cfg.enableFailover then 2 else 1) := by split <;> omega
  obtain ⟨nc, nb, hc, hb, hrel, hlast⟩ := runCandidates_spec oracle _ hmx
    (getModelFailoverChain cfg.enableFailover model) TurnState.start none
  rcases hE : runCandidates oracle (if cfg.enableFailover then 2 else 1) TurnState.start none
      (getModelFailoverChain cfg.enableFailover model) with ⟨st, lastErr, res?⟩
  rw [hE] at hc hb hrel hlast
  simp only [TurnState.start, List.nil_append] at hc hb
  refine ⟨chain_disabled pm, chain_enabled pm, ?_, ?_, ?_⟩
  · refine ⟨res?, ?_, ?_⟩
    · cases res? with
      | none =>
          rw [executeTurn_of_none cfg oracle model st lastErr hE]
          show ChainRun _ _ st.calls st.backoffs none
          rw [hc, hb]
          exact hrel
      | some winres =>
          rcases winres with ⟨winner, res⟩
          rw [executeTurn_of_some cfg oracle model st lastErr winner res hE]
          show ChainRun _ _ st.calls st.backoffs (some (winner, res))
          rw [hc, hb]
          exact hrel
    · cases res? with
      | none =>
          rw [executeTurn_of_none cfg oracle model st lastErr hE]
          simp
      | some winres =>
          rcases winres with ⟨winner, res⟩
          rw [executeTurn_of_some cfg oracle model st lastErr winner res hE]
          simp
  · intro m
    have hcount := ChainRun_stream_count hrel hmx
      (getModelFailoverChain_nodup cfg.enableFailover model) m
    cases res? with
    | none =>
        rw [executeTurn_of_none cfg oracle model st lastErr hE]
        show (st.calls.filter _).length ≤ _
        rw [hc]
        exact hcount
    | some winres =>
        rcases winres with ⟨winner, res⟩
        rw [executeTurn_of_some cfg oracle model st lastErr winner res hE]
        show (st.calls.filter _).length ≤ _
        rw [hc]
        exact hcount
  · intro e he
    cases res? with
    | none =>
        rw [executeTurn_of_none cfg oracle model st lastErr hE] at he ⊢
        simp only [Option.some.injEq] at he
        rcases hlast rfl with ⟨hempty, herr⟩ | ⟨e2, c2, hsome, hlast2, hres2⟩
        · exfalso
          rcases hch : getModelFailoverChain cfg.enableFailover model with _ | ⟨c0, rest0⟩
          · exact getModelFailoverChain_ne_nil cfg.enableFailover model hch
          · rw [hch] at hrel
            rw [hempty] at hrel
            exact ChainRun_cons_calls_ne_nil hrel rfl
        · dsimp only at hsome
          rw [hsome] at he
          simp only [Option.getD_some] at he
          refine ⟨c2, ?_, ?_⟩
          · show st.calls.getLast? = some c2
            rw [hc]
            exact hlast2
          · rw [hres2, he]
    | some winres =>
        rcases winres with ⟨winner, res⟩
        rw [executeTurn_of_some cfg oracle model st lastErr winner res hE] at he
        cases he

/-- Witness for C4: both candidates fail with the non-retryable error `boom`;
the error surfaced is the last call's error. -/
theorem c4_failover_policy_witness :
    ∃ c, (executeTurn ⟨true, 2⟩ oracleFail DEFAULT_MODEL).calls.getLast? = some c ∧
      c.result = .error "boom" :=
  (c4_failover_policy ⟨true, 2⟩ oracleFail DEFAULT_MODEL DEFAULT_MODEL).2.2.2.2 "boom"
    (by decide)

end Route

namespace Lock

theorem grantedFuel_eq (s : LockState) (fuel t : Nat) :
    grantedFuel s fuel t =
      match s.tickets[t]? with
      | none => false
      | some info =>
          match info.prev with
          | none => true
          | some p =>
              match fuel with
              | 0 => false
              | fuel' + 1 => isReleased s p && grantedFuel s fuel' p := by
  conv_lhs => unfold grantedFuel

theorem grantedFuel_prevMatch {s : LockState} {fuel t : Nat} {info : TicketInfo}
    (hti : s.tickets[t]? = some info) :
    grantedFuel s fuel t =
      match info.prev with
      | none => true
      | some p =>
          match fuel with
          | 0 => false
          | fuel' + 1 => isReleased s p && grantedFuel s fuel' p := by
  have h0 := grantedFuel_eq s fuel t
  rw [hti] at h0
  exact h0

theorem grantedFuel_of_none {s : LockState} {fuel t : Nat}
    (hti : s.tickets[t]? = none) : grantedFuel s fuel t = false := by
  have h0 := grantedFuel_eq s fuel t
  rw [hti] at h0
  exact h0

theorem grantedFuel_of_prev_none {s : LockState} {fuel t : Nat} {info : TicketInfo}
    (hti : s.tickets[t]? = some info) (hp : info.prev = none) :
    grantedFuel s fuel t = true := by
  have h0 := @grantedFuel_prevMatch s fuel t info hti
  rw [hp] at h0
  exact h0

theorem grantedFuel_zero_of_prev {s : LockState} {t : Nat} {info : TicketInfo} {p : Nat}
    (hti : s.tickets[t]? = some info) (hp : info.prev = some p) :
    grantedFuel s 0 t = false := by
  have h0 := @grantedFuel_prevMatch s 0 t info hti
  rw [hp] at h0
  exact h0

theorem grantedFuel_succ_of_prev {s : LockState} {fuel t : Nat} {info : TicketInfo} {p : Nat}
    (hti : s.tickets[t]? = some info) (hp : info.prev = some p) :
    grantedFuel s (fuel + 1) t = (isReleased s p && grantedFuel s fuel p) := by
  have h0 := @grantedFuel_prevMatch s (fuel + 1) t info hti
  rw [hp] at h0
  exact h0

theorem grantedFuel_congr (s : LockState)
    (hprev : ∀ (i : Nat) (info : TicketInfo) (p : Nat),
      s.tickets[i]? = some info → info.prev = some p → p < i) :
    ∀ t fuel1 fuel2, t ≤ fuel1 → t ≤ fuel2 →
      grantedFuel s fuel1 t = grantedFuel s fuel2 t := by
  intro t
  induction t using Nat.strong_induction_on with
  | _ t ih =>
      intro fuel1 fuel2 h1 h2
      cases hti : s.tickets[t]? with
      | none => rw [grantedFuel_of_none hti, grantedFuel_of_none hti]
      | some info =>
          cases hp : info.prev with
          | none => rw [grantedFuel_of_prev_none hti hp, grantedFuel_of_prev_none hti hp]
          | some p =>
              have hpt : p < t := hprev t info p hti hp
              cases fuel1 with
              | zero => omega
              | succ f1 =>
                  cases fuel2 with
                  | zero => omega
                  | succ f2 =>
                      rw [grantedFuel_succ_of_prev hti hp, grantedFuel_succ_of_prev hti hp]
                      rw [ih p hpt f1 f2 (by omega) (by omega)]

theorem grantedFuel_le (s : LockState)
    (hprev : ∀ (i : Nat) (info : TicketInfo) (p : Nat),
      s.tickets[i]? = some info → info.prev = some p → p < i)
    (t fuel : Nat) (hf : t ≤ fuel) : grantedFuel s fuel t = granted s t :=
  grantedFuel_congr s hprev t fuel t hf (Nat.le_refl t)

theorem grantedFuel_mono {s s' : LockState}
    (hlook : ∀ (j : Nat) (info : TicketInfo), s.tickets[j]? = some info →
      ∃ info' : TicketInfo, s'.tickets[j]? = some info' ∧ info'.prev = info.prev ∧
        (info.released = true → info'.released = true)) :
    ∀ fuel t, grantedFuel s fuel t = true → grantedFuel s' fuel t = true := by
  intro fuel
  induction fuel with
  | zero =>
      intro t h
      cases hti : s.tickets[t]? with
      | none => rw [grantedFuel_of_none hti] at h; cases h
      | some info =>
          obtain ⟨info', hti', hp', _⟩ := hlook t info hti
          cases hp : info.prev with
          | none =>
              rw [hp] at hp'
              rw [grantedFuel_of_prev_none hti' hp']
          | some p =>
              rw [grantedFuel_zero_of_prev hti hp] at h
              cases h
  | succ fuel ih =>
      intro t h
      cases hti : s.tickets[t]? with
      | none => rw [grantedFuel_of_none hti] at h; cases h
      | some info =>
          obtain ⟨info', hti', hp', hr'⟩ := hlook t info hti
          cases hp : info.prev with
          | none =>
              rw [hp] at hp'
              rw [grantedFuel_of_prev_none hti' hp']
          | some p =>
              rw [hp] at hp'
              rw [grantedFuel_succ_of_prev hti hp, Bool.and_eq_true] at h
              obtain ⟨hrel, hrec⟩ := h
              rw [grantedFuel_succ_of_prev hti' hp', Bool.and_eq_true]
              refine ⟨?_, ih p hrec⟩
              unfold isReleased at hrel ⊢
              cases hpl : s.tickets[p]? with
              | none => rw [hpl] at hrel; cases hrel
              | some pinfo =>
                  rw [hpl] at hrel
                  obtain ⟨pinfo', hpl', _, hpr'⟩ := hlook p pinfo hpl
                  rw [hpl']
                  exact hpr' hrel

theorem granted_mono {s s' : LockState}
    (hlook : ∀ (j : Nat) (info : TicketInfo), s.tickets[j]? = some info →
      ∃ info' : TicketInfo, s'.tickets[j]? = some info' ∧ info'.prev = info.prev ∧
        (info.released = true → info'.released = true))
    (t : Nat) (h : granted s t = true) : granted s' t = true :=
  grantedFuel_mono hlook t t h

theorem granted_lookup {s : LockState} {t : Nat} (h : granted s t = true) :
    ∃ info : TicketInfo, s.tickets[t]? = some info := by
  cases hti : s.tickets[t]? with
  | none => rw [granted, grantedFuel_of_none hti] at h; cases h
  | some info => exact ⟨info, rfl⟩

theorem granted_prev {s : LockState}
    (hprev : ∀ (i : Nat) (info : TicketInfo) (p : Nat),
      s.tickets[i]? = some info → info.prev = some p → p < i)
    {t : Nat} {info : TicketInfo} {p : Nat}
    (hti : s.tickets[t]? = some info) (hp : info.prev = some p)
    (hg : granted s t = true) : isReleased s p = true ∧ granted s p = true := by
  have hpt : p < t := hprev t info p hti hp
  unfold granted at hg
  cases t with
  | zero => omega
  | succ t' =>
      rw [grantedFuel_succ_of_prev hti hp, Bool.and_eq_true] at hg
      obtain ⟨h1, h2⟩ := hg
      exact ⟨h1, by rw [← grantedFuel_le s hprev p t' (by omega)]; exact h2⟩

end Lock

namespace Lock

theorem granted_released_below {s : LockState} (hInv : Inv s) :
    ∀ t, granted s t = true → ∀ (j : Nat) (jinfo : TicketInfo), j < t →
      s.tickets[j]? = some jinfo → jinfo.released = true := by
  intro t
  induction t using Nat.strong_induction_on with
  | _ t ih =>
      intro hg j jinfo hjt hjl
      obtain ⟨info, hti⟩ := granted_lookup hg
      cases hentry : s.entry with
      | none => exact hInv.noEntryAllReleased hentry j jinfo hjl
      | some gt =>
          rcases gt with ⟨g, tail⟩
          obtain ⟨hlen, tinfo, htl, htg⟩ := hInv.entryTail g tail hentry
          have htlen : t < s.tickets.length := by
            obtain ⟨hlt, _⟩ := List.getElem?_eq_some.mp hti
            exact hlt
          have hle : t ≤ tail := by omega
          have hgen_le_t : jinfo.gen ≤ info.gen :=
            hInv.genMono j t _ _ (Nat.le_of_lt hjt) hjl hti
          have hgen_t_le : info.gen ≤ tinfo.gen := hInv.genMono t tail _ _ hle hti htl
          by_cases hjg : jinfo.gen = info.gen
          · cases hp : info.prev with
            | none => exact absurd hjg (hInv.firstOfGen t info j jinfo hti hp hjt hjl)
            | some p =>
                have hpt : p < t := hInv.prevLt t info p hti hp
                obtain ⟨hrelp, hgp⟩ := granted_prev hInv.prevLt hti hp hg
                rcases Nat.lt_trichotomy j p with hjp | hjp | hjp
                · exact ih p hpt hgp j jinfo hjp hjl
                · subst hjp
                  unfold isReleased at hrelp
                  rw [hjl] at hrelp
                  exact hrelp
                · exact absurd hjg (hInv.prevLargest t info p j jinfo hti hp hjp hjt hjl)
          · have hne : jinfo.gen ≠ g := by omega
            exact hInv.oldGenReleased g tail j jinfo hentry hjl hne

theorem lookup_concat {l : List TicketInfo} {x : TicketInfo} {i : Nat} {info : TicketInfo}
    (h : (l ++ [x])[i]? = some info) :
    (i < l.length ∧ l[i]? = some info) ∨ (i = l.length ∧ info = x) := by
  rcases Nat.lt_trichotomy i l.length with hlt | heq | hgt
  · left
    refine ⟨hlt, ?_⟩
    rw [List.getElem?_append, if_pos hlt] at h
    exact h
  · right
    subst heq
    rw [List.getElem?_concat_length] at h
    injection h with h
    exact ⟨rfl, h.symm⟩
  · exfalso
    have : (l ++ [x])[i]? = none := by
      apply List.getElem?_eq_none
      simp
      omega
    rw [this] at h
    cases h

end Lock

namespace Lock

theorem acquire_tickets (s : LockState) :
    (acquire s).tickets = s.tickets ++
      [match s.entry with
       | none => { gen := s.nextGen, prev := none, released := false }
       | some (g, tl) => { gen := g, prev := some tl, released := false }] := by
  unfold acquire
  cases s.entry with
  | none => rfl
  | some gt => rcases gt with ⟨g, tl⟩; rfl

theorem acquire_entry (s : LockState) :
    (acquire s).entry = some
      ((match s.entry with
        | none => s.nextGen
        | some (g, _) => g), s.tickets.length) := by
  unfold acquire
  cases s.entry with
  | none => rfl
  | some gt => rcases gt with ⟨g, tl⟩; rfl

theorem acquire_nextGen (s : LockState) :
    (acquire s).nextGen = (match s.entry with
      | none => s.nextGen + 1
      | some _ => s.nextGen) := by
  unfold acquire
  cases s.entry with
  | none => rfl
  | some gt => rcases gt with ⟨g, tl⟩; rfl

theorem lookup_concat_lt {l : List TicketInfo} {x : TicketInfo} {i : Nat}
    (h : i < l.length) : (l ++ [x])[i]? = l[i]? := by
  rw [List.getElem?_append, if_pos h]

theorem acquire_mono {s : LockState} :
    ∀ (j : Nat) (info : TicketInfo), s.tickets[j]? = some info →
      ∃ info' : TicketInfo, (acquire s).tickets[j]? = some info' ∧ info'.prev = info.prev ∧
        (info.released = true → info'.released = true) := by
  intro j info hj
  obtain ⟨hlt, _⟩ := List.getElem?_eq_some.mp hj
  refine ⟨info, ?_, rfl, fun h => h⟩
  rw [acquire_tickets, lookup_concat_lt hlt]
  exact hj

end Lock

namespace Lock

theorem Inv_start : Inv LockState.start := by
  constructor <;> intros <;> simp_all [LockState.start]

theorem Inv_acquire {s : LockState} (hInv : Inv s) : Inv (acquire s) := by
  cases hent : s.entry with
  | none =>
      have hT : (acquire s).tickets =
          s.tickets ++ [{ gen := s.nextGen, prev := none, released := false }] := by
        simp [acquire_tickets, hent]
      have hE : (acquire s).entry = some (s.nextGen, s.tickets.length) := by
        simp [acquire_entry, hent]
      have hN : (acquire s).nextGen = s.nextGen + 1 := by
        simp [acquire_nextGen, hent]
      have hAllRel := hInv.noEntryAllReleased hent
      constructor
      · intro i info p hi hp
        rw [hT] at hi
        rcases lookup_concat hi with ⟨hlt, hold⟩ | ⟨heq, hinfo⟩
        · exact hInv.prevLt i info p hold hp
        · subst hinfo; simp at hp
      · intro i info p pinfo hi hp hpl
        rw [hT] at hi hpl
        rcases lookup_concat hi with ⟨hlt, hold⟩ | ⟨heq, hinfo⟩
        · have hpi : p < i := hInv.prevLt i info p hold hp
          rcases lookup_concat hpl with ⟨_, holdp⟩ | ⟨heqp, _⟩
          · exact hInv.prevGen i info p pinfo hold hp holdp
          · omega
        · subst hinfo; simp at hp
      · intro i info p j jinfo hi hp hpj hji hjl
        rw [hT] at hi hjl
        rcases lookup_concat hi with ⟨hlt, hold⟩ | ⟨heq, hinfo⟩
        · rcases lookup_concat hjl with ⟨_, holdj⟩ | ⟨heqj, _⟩
          · exact hInv.prevLargest i info p j jinfo hold hp hpj hji holdj
          · omega
        · subst hinfo; simp at hp
      · intro i info j jinfo hi hp hji hjl
        rw [hT] at hi hjl
        rcases lookup_concat hi with ⟨hlt, hold⟩ | ⟨heq, hinfo⟩
        · rcases lookup_concat hjl with ⟨_, holdj⟩ | ⟨heqj, _⟩
          · exact hInv.firstOfGen i info j jinfo hold hp hji holdj
          · omega
        · subst hinfo
          rcases lookup_concat hjl with ⟨hltj, holdj⟩ | ⟨heqj, _⟩
          · have := hInv.genLtNext j jinfo holdj
            simp only
            omega
          · omega
      · intro g t hgt
        rw [hE] at hgt
        injection hgt with hgt
        injection hgt with hg ht
        subst hg; subst ht
        constructor
        · rw [hT]; simp
        · rw [hT, List.getElem?_concat_length]
          exact ⟨_, rfl, rfl⟩
      · intro hnone
        rw [hE] at hnone
        cases hnone
      · intro g t i info hgt hi hgen
        rw [hE] at hgt
        injection hgt with hgt
        injection hgt with hg ht
        subst hg
        rw [hT] at hi
        rcases lookup_concat hi with ⟨hlt, hold⟩ | ⟨heq, hinfo⟩
        · exact hAllRel i info hold
        · subst hinfo
          simp at hgen
      · intro i info hi
        rw [hN, hT] at *
        rw [hT] at hi
        rcases lookup_concat hi with ⟨hlt, hold⟩ | ⟨heq, hinfo⟩
        · have := hInv.genLtNext i info hold
          rw [hN]
          omega
        · subst hinfo
          rw [hN]
          simp
      · intro i j iinfo jinfo hij hi hj
        rw [hT] at hi hj
        rcases lookup_concat hi with ⟨hlti, holdi⟩ | ⟨heqi, hinfoi⟩
        · rcases lookup_concat hj with ⟨hltj, holdj⟩ | ⟨heqj, hinfoj⟩
          · exact hInv.genMono i j iinfo jinfo hij holdi holdj
          · subst hinfoj
            have := hInv.genLtNext i iinfo holdi
            simp only
            omega
        · rcases lookup_concat hj with ⟨hltj, holdj⟩ | ⟨heqj, hinfoj⟩
          · omega
          · subst hinfoi; subst hinfoj
            exact Nat.le_refl _
      · intro i info hi hrel
        rw [hT] at hi
        rcases lookup_concat hi with ⟨hlt, hold⟩ | ⟨heq, hinfo⟩
        · exact granted_mono acquire_mono i (hInv.releasedGranted i info hold hrel)
        · subst hinfo
          simp at hrel
  | some gt =>
      rcases gt with ⟨g0, tail0⟩
      obtain ⟨hlen0, tinfo, htl0, htg0⟩ := hInv.entryTail g0 tail0 hent
      have hT : (acquire s).tickets =
          s.tickets ++ [{ gen := g0, prev := some tail0, released := false }] := by
        simp [acquire_tickets, hent]
      have hE : (acquire s).entry = some (g0, s.tickets.length) := by
        simp [acquire_entry, hent]
      have hN : (acquire s).nextGen = s.nextGen := by
        simp [acquire_nextGen, hent]
      constructor
      · intro i info p hi hp
        rw [hT] at hi
        rcases lookup_concat hi with ⟨hlt, hold⟩ | ⟨heq, hinfo⟩
        · exact hInv.prevLt i info p hold hp
        · subst hinfo
          simp only at hp
          injection hp with hp
          omega
      · intro i info p pinfo hi hp hpl
        rw [hT] at hi hpl
        rcases lookup_concat hi with ⟨hlt, hold⟩ | ⟨heq, hinfo⟩
        · have hpi : p < i := hInv.prevLt i info p hold hp
          rcases lookup_concat hpl with ⟨_, holdp⟩ | ⟨heqp, _⟩
          · exact hInv.prevGen i info p pinfo hold hp holdp
          · omega
        · subst hinfo
          simp only at hp
          injection hp with hp
          subst hp
          rcases lookup_concat hpl with ⟨_, holdp⟩ | ⟨heqp, _⟩
          · rw [holdp] at htl0
            injection htl0 with htl0
            subst htl0
            simpa using htg0
          · omega
      · intro i info p j jinfo hi hp hpj hji hjl
        rw [hT] at hi hjl
        rcases lookup_concat hi with ⟨hlt, hold⟩ | ⟨heq, hinfo⟩
        · rcases lookup_concat hjl with ⟨_, holdj⟩ | ⟨heqj, _⟩
          · exact hInv.prevLargest i info p j jinfo hold hp hpj hji holdj
          · omega
        · subst hinfo
          simp only at hp
          injection hp with hp
          subst hp
          omega
      · intro i info j jinfo hi hp hji hjl
        rw [hT] at hi hjl
        rcases lookup_concat hi with ⟨hlt, hold⟩ | ⟨heq, hinfo⟩
        · rcases lookup_concat hjl with ⟨_, holdj⟩ | ⟨heqj, _⟩
          · exact hInv.firstOfGen i info j jinfo hold hp hji holdj
          · omega
        · subst hinfo
          simp at hp
      · intro g t hgt
        rw [hE] at hgt
        injection hgt with hgt
        injection hgt with hg ht
        subst hg; subst ht
        constructor
        · rw [hT]; simp
        · rw [hT, List.getElem?_concat_length]
          exact ⟨_, rfl, rfl⟩
      · intro hnone
        rw [hE] at hnone
        cases hnone
      · intro g t i info hgt hi hgen
        rw [hE] at hgt
        injection hgt with hgt
        injection hgt with hg ht
        subst hg
        rw [hT] at hi
        rcases lookup_concat hi with ⟨hlt, hold⟩ | ⟨heq, hinfo⟩
        · exact hInv.oldGenReleased g0 tail0 i info hent hold hgen
        · subst hinfo
          simp at hgen
      · intro i info hi
        rw [hT] at hi
        rcases lookup_concat hi with ⟨hlt, hold⟩ | ⟨heq, hinfo⟩
        · have := hInv.genLtNext i info hold
          rw [hN]
          omega
        · subst hinfo
          rw [hN]
          have := hInv.genLtNext tail0 tinfo htl0
          simp only
          omega
      · intro i j iinfo jinfo hij hi hj
        rw [hT] at hi hj
        rcases lookup_concat hi with ⟨hlti, holdi⟩ | ⟨heqi, hinfoi⟩
        · rcases lookup_concat hj with ⟨hltj, holdj⟩ | ⟨heqj, hinfoj⟩
          · exact hInv.genMono i j iinfo jinfo hij holdi holdj
          · subst hinfoj
            have hle : i ≤ tail0 := by omega
            have := hInv.genMono i tail0 iinfo tinfo hle holdi htl0
            simp only
            omega
        · rcases lookup_concat hj with ⟨hltj, holdj⟩ | ⟨heqj, hinfoj⟩
          · omega
          · subst hinfoi; subst hinfoj
            exact Nat.le_refl _
      · intro i info hi hrel
        rw [hT] at hi
        rcases lookup_concat hi with ⟨hlt, hold⟩ | ⟨heq, hinfo⟩
        · exact granted_mono acquire_mono i (hInv.releasedGranted i info hold hrel)
        · subst hinfo
          simp at hrel

end Lock

namespace Lock

theorem release_of_none {s : LockState} {t : Nat} (h : s.tickets[t]? = none) :
    release s t = s := by
  unfold release
  rw [h]

theorem release_of_released {s : LockState} {t : Nat} {info : TicketInfo}
    (h : s.tickets[t]? = some info) (hr : info.released = true) : release s t = s := by
  unfold release
  rw [h]
  simp [hr]

theorem release_of_not_granted {s : LockState} {t : Nat} {info : TicketInfo}
    (h : s.tickets[t]? = some info) (hr : info.released = false)
    (hg : granted s t = false) : release s t = s := by
  unfold release
  rw [h]
  simp [hr, hg]

theorem release_effective {s : LockState} {t : Nat} {info : TicketInfo}
    (h : s.tickets[t]? = some info) (hr : info.released = false)
    (hg : granted s t = true) :
    release s t =
      { s with
        tickets := s.tickets.set t { info with released := true },
        entry :=
          match s.entry with
          | some (g, tailTicket) => if g = info.gen ∧ tailTicket = t then none else s.entry
          | none => none } := by
  unfold release
  rw [h]
  simp [hr, hg]

end Lock

namespace Lock

theorem Inv_release {s : LockState} (hInv : Inv s) (t : Nat) : Inv (release s t) := by
  cases hti : s.tickets[t]? with
  | none => rw [release_of_none hti]; exact hInv
  | some info =>
      by_cases hrelb : info.released = true
      · rw [release_of_released hti hrelb]; exact hInv
      · have hrel : info.released = false := by simpa using hrelb
        by_cases hgb : granted s t = true
        · have htlen : t < s.tickets.length := (List.getElem?_eq_some.mp hti).1
          have hlookT : ∀ (j : Nat), (s.tickets.set t { info with released := true })[j]? =
              if j = t then some { info with released := true } else s.tickets[j]? := by
            intro j
            by_cases hjt : j = t
            · subst hjt
              rw [List.getElem?_set_self htlen, if_pos rfl]
            · rw [List.getElem?_set_ne (Ne.symm hjt), if_neg hjt]
          have hmono : ∀ (j : Nat) (inf : TicketInfo), s.tickets[j]? = some inf →
              ∃ inf' : TicketInfo,
                (s.tickets.set t { info with released := true })[j]? = some inf' ∧
                inf'.prev = inf.prev ∧ (inf.released = true → inf'.released = true) := by
            intro j inf hj
            by_cases hjt : j = t
            · subst hjt
              rw [hj] at hti
              injection hti with hti
              subst hti
              exact ⟨{ inf with released := true }, by rw [hlookT, if_pos rfl], rfl,
                fun _ => rfl⟩
            · exact ⟨inf, by rw [hlookT, if_neg hjt]; exact hj, rfl, fun h => h⟩
          have hsplit : ∀ (j : Nat) (inf : TicketInfo),
              (s.tickets.set t { info with released := true })[j]? = some inf →
              (j = t ∧ inf.gen = info.gen ∧ inf.prev = info.prev ∧ inf.released = true) ∨
              (j ≠ t ∧ s.tickets[j]? = some inf) := by
            intro j inf hj
            rw [hlookT] at hj
            by_cases hjt : j = t
            · rw [if_pos hjt] at hj
              injection hj with hj
              subst hj
              exact Or.inl ⟨hjt, rfl, rfl, rfl⟩
            · rw [if_neg hjt] at hj
              exact Or.inr ⟨hjt, hj⟩
          have horig : ∀ (j : Nat) (inf : TicketInfo),
              (s.tickets.set t { info with released := true })[j]? = some inf →
              ∃ inf0 : TicketInfo, s.tickets[j]? = some inf0 ∧ inf0.gen = inf.gen ∧
                inf0.prev = inf.prev := by
            intro j inf hj
            rcases hsplit j inf hj with ⟨hjt, hgen, hprev, _⟩ | ⟨_, hold⟩
            · subst hjt
              exact ⟨info, hti, hgen.symm, hprev.symm⟩
            · exact ⟨inf, hold, rfl, rfl⟩
          rw [release_effective hti hrel hgb]
          constructor
          · intro i inf p hi hp
            obtain ⟨inf0, hold, _, hprev⟩ := horig i inf hi
            exact hInv.prevLt i inf0 p hold (by rw [hprev]; exact hp)
          · intro i inf p pinf hi hp hpl
            obtain ⟨inf0, hold, hgen0, hprev0⟩ := horig i inf hi
            obtain ⟨pinf0, holdp, hgenp, _⟩ := horig p pinf hpl
            rw [← hgen0, ← hgenp]
            exact hInv.prevGen i inf0 p pinf0 hold (by rw [hprev0]; exact hp) holdp
          · intro i inf p j jinf hi hp hpj hji hjl
            obtain ⟨inf0, hold, hgen0, hprev0⟩ := horig i inf hi
            obtain ⟨jinf0, holdj, hgenj, _⟩ := horig j jinf hjl
            rw [← hgen0, ← hgenj]
            exact hInv.prevLargest i inf0 p j jinf0 hold (by rw [hprev0]; exact hp) hpj hji holdj
          · intro i inf j jinf hi hp hji hjl
            obtain ⟨inf0, hold, hgen0, hprev0⟩ := horig i inf hi
            obtain ⟨jinf0, holdj, hgenj, _⟩ := horig j jinf hjl
            rw [← hgen0, ← hgenj]
            exact hInv.firstOfGen i inf0 j jinf0 hold (by rw [hprev0]; exact hp) hji holdj
          · intro g tl hgt
            simp only at hgt
            cases hentry : s.entry with
            | none => rw [hentry] at hgt; cases hgt
            | some gt0 =>
                rcases gt0 with ⟨g0, tl0⟩
                rw [hentry] at hgt
                dsimp only at hgt
                by_cases hdel : g0 = info.gen ∧ tl0 = t
                · rw [if_pos hdel] at hgt; cases hgt
                · rw [if_neg hdel] at hgt
                  injection hgt with hgt
                  injection hgt with hgg htt
                  rw [hgg, htt] at hentry hdel
                  obtain ⟨hlen0, tinfo, htl0, htg0⟩ := hInv.entryTail g tl hentry
                  have htlt : tl ≠ t := by
                    intro heq
                    subst heq
                    rw [htl0] at hti
                    injection hti with hti
                    subst hti
                    exact hdel ⟨htg0.symm, rfl⟩
                  refine ⟨by simpa using hlen0, tinfo, ?_, htg0⟩
                  rw [hlookT, if_neg htlt]
                  exact htl0
          · intro hnone
            simp only at hnone
            cases hentry : s.entry with
            | none =>
                exfalso
                have := hInv.noEntryAllReleased hentry t info hti
                rw [this] at hrel
                cases hrel
            | some gt0 =>
                rcases gt0 with ⟨g0, tl0⟩
                rw [hentry] at hnone
                dsimp only at hnone
                by_cases hdel : g0 = info.gen ∧ tl0 = t
                · obtain ⟨hgg, htt⟩ := hdel
                  rw [htt] at hentry
                  obtain ⟨hlen0, tinfo, htl0, htg0⟩ := hInv.entryTail g0 t hentry
                  intro i inf hi
                  rcases hsplit i inf hi with ⟨hit, _, _, hr⟩ | ⟨hit, hold⟩
                  · exact hr
                  · have hilen : i < s.tickets.length := (List.getElem?_eq_some.mp hold).1
                    have hit2 : i < t := by omega
                    exact granted_released_below hInv t hgb i inf hit2 hold
                · rw [if_neg hdel] at hnone
                  simp at hnone
          · intro g tl i inf hgt hi hgen
            simp only at hgt
            cases hentry : s.entry with
            | none => rw [hentry] at hgt; cases hgt
            | some gt0 =>
                rcases gt0 with ⟨g0, tl0⟩
                rw [hentry] at hgt
                dsimp only at hgt
                by_cases hdel : g0 = info.gen ∧ tl0 = t
                · rw [if_pos hdel] at hgt; cases hgt
                · rw [if_neg hdel] at hgt
                  rcases hsplit i inf hi with ⟨hit, _, _, hr⟩ | ⟨hit, hold⟩
                  · exact hr
                  · rw [hgt] at hentry
                    rcases horig i inf hi with ⟨inf0, hold0, hgen0, _⟩
                    have : inf0.gen ≠ g := by rw [hgen0]; exact hgen
                    have hres := hInv.oldGenReleased g tl i inf0 hentry hold0 this
                    rw [hold0] at hold
                    injection hold with hold
                    rw [← hold]
                    exact hres
          · intro i inf hi
            obtain ⟨inf0, hold, hgen0, _⟩ := horig i inf hi
            rw [← hgen0]
            show inf0.gen < s.nextGen
            exact hInv.genLtNext i inf0 hold
          · intro i j iinf jinf hij hi hj
            obtain ⟨iinf0, holdi, hgeni, _⟩ := horig i iinf hi
            obtain ⟨jinf0, holdj, hgenj, _⟩ := horig j jinf hj
            rw [← hgeni, ← hgenj]
            exact hInv.genMono i j iinf0 jinf0 hij holdi holdj
          · intro i inf hi hr
            show granted _ i = true
            rcases hsplit i inf hi with ⟨hit, _, _, _⟩ | ⟨hit, hold⟩
            · subst hit
              exact granted_mono hmono i hgb
            · have hg0 : granted s i = true := by
                rcases horig i inf hi with ⟨inf0, hold0, _, _⟩
                rw [hold0] at hold
                injection hold with hold
                exact hInv.releasedGranted i inf0 hold0 (by rw [hold]; exact hr)
              exact granted_mono hmono i hg0
        · have hg : granted s t = false := by simpa using hgb
          rw [release_of_not_granted hti hrel hg]
          exact hInv

theorem Inv_run (ops : List LockOp) : Inv (runLock ops) := by
  suffices h : ∀ s, Inv s → Inv (ops.foldl lockStep s) by
    exact h LockState.start Inv_start
  induction ops with
  | nil => intro s hs; exact hs
  | cons op rest ih =>
      intro s hs
      cases op with
      | acq => exact ih (acquire s) (Inv_acquire hs)
      | rel t => exact ih (release s t) (Inv_release hs t)

end Lock

namespace Lock

/-- C3: over every history of lock-manager calls for one conversation id,
the manager is FIFO (a granted ticket implies every earlier-issued ticket was
granted first, and at most one ticket holds the lock at any time), each
ticket's release closure is idempotent (any second call is a no-op), and a
release that finds the map entry still holding its own queue object with its
own ticket as tail deletes the entry. -/
theorem c3_lock_manager (ops : List LockOp) :
    (∀ t1 t2 : Nat, t1 ≤ t2 → granted (runLock ops) t2 = true →
      granted (runLock ops) t1 = true) ∧
    (∀ t1 t2 : Nat, t1 < t2 → holder (runLock ops) t1 → holder (runLock ops) t2 → False) ∧
    (∀ t : Nat, release (release (runLock ops) t) t = release (runLock ops) t) ∧
    (∀ (g t : Nat) (info : TicketInfo), (runLock ops).entry = some (g, t) →
      (runLock ops).tickets[t]? = some info → info.released = false →
      granted (runLock ops) t = true → (release (runLock ops) t).entry = none) := by
  have hInv := Inv_run ops
  set s := runLock ops
  refine ⟨?_, ?_, ?_, ?_⟩
  · intro t1 t2 h12 hg2
    rcases Nat.eq_or_lt_of_le h12 with heq | hlt
    · rw [heq]; exact hg2
    · obtain ⟨i2, ht2⟩ := granted_lookup hg2
      have ht2len : t2 < s.tickets.length := (List.getElem?_eq_some.mp ht2).1
      have ht1len : t1 < s.tickets.length := by omega
      obtain ⟨i1, ht1⟩ : ∃ i1 : TicketInfo, s.tickets[t1]? = some i1 := by
        rw [List.getElem?_eq_getElem ht1len]
        exact ⟨_, rfl⟩
      have hrel := granted_released_below hInv t2 hg2 t1 i1 hlt ht1
      exact hInv.releasedGranted t1 i1 ht1 hrel
  · intro t1 t2 h12 h1 h2
    obtain ⟨hg1, hr1⟩ := h1
    obtain ⟨hg2, _⟩ := h2
    obtain ⟨i1, ht1⟩ := granted_lookup hg1
    have hrel := granted_released_below hInv t2 hg2 t1 i1 h12 ht1
    unfold isReleased at hr1
    rw [ht1] at hr1
    dsimp only at hr1
    rw [hrel] at hr1
    cases hr1
  · intro t
    cases hti : s.tickets[t]? with
    | none =>
        rw [release_of_none hti, release_of_none hti]
    | some info =>
        by_cases hrel : info.released = true
        · rw [release_of_released hti hrel, release_of_released hti hrel]
        · have hrelf : info.released = false := by simpa using hrel
          by_cases hg : granted s t = true
          · have htlen : t < s.tickets.length := (List.getElem?_eq_some.mp hti).1
            have hti2 : (release s t).tickets[t]? = some { info with released := true } := by
              rw [release_effective hti hrelf hg]
              exact List.getElem?_set_self htlen
            exact release_of_released hti2 rfl
          · have hgf : granted s t = false := by simpa using hg
            rw [release_of_not_granted hti hrelf hgf,
              release_of_not_granted hti hrelf hgf]
  · intro g t info hentry hti hrel hg
    obtain ⟨hlen, tinfo, htl, htg⟩ := hInv.entryTail g t hentry
    have htg2 : info.gen = g := by
      rw [hti] at htl
      injection htl with h
      rw [h]
      exact htg
    rw [release_effective hti hrel hg]
    dsimp only
    rw [hentry]
    dsimp only
    rw [if_pos ⟨htg2.symm, rfl⟩]

/-- Witness for C3 at the history acquire, acquire, release-of-ticket-0:
ticket 1 is then granted, its release closure is idempotent, and releasing
ticket 1 (the stored tail) deletes the map entry. -/
theorem c3_lock_manager_witness :
    granted (runLock [.acq, .acq, .rel 0]) 1 = true ∧
    release (release (runLock [.acq, .acq, .rel 0]) 1) 1 =
      release (runLock [.acq, .acq, .rel 0]) 1 ∧
    (release (runLock [.acq, .acq, .rel 0]) 1).entry = none := by
  refine ⟨?_, ?_, ?_⟩
  · exact (c3_lock_manager [.acq, .acq, .rel 0]).1 1 1 (by decide) (by decide)
  · exact (c3_lock_manager [.acq, .acq, .rel 0]).2.2.1 1
  · exact (c3_lock_manager [.acq, .acq, .rel 0]).2.2.2 0 1
      { gen := 0, prev := some 0, released := false }
      (by decide) (by decide) (by decide) (by decide)

end Lock

namespace Sse

open HeavyFingers

theorem findEventSplit_some_length {b pre post : List Char}
    (h : findEventSplit b = some (pre, post)) :
    b.length = pre.length + 2 + post.length := by
  induction b generalizing pre post with
  | nil => cases h
  | cons x rest ih =>
      unfold findEventSplit at h
      by_cases hc : x = '\n' ∧ rest.head? = some '\n'
      · rw [if_pos hc] at h
        injection h with h
        injection h with h1 h2
        rw [← h1, ← h2]
        cases rest with
        | nil => exact absurd hc.2 (by simp)
        | cons r rs => simp; omega
      · rw [if_neg hc] at h
        cases hfs : findEventSplit rest with
        | none => rw [hfs] at h; cases h
        | some pp =>
            rcases pp with ⟨pre0, post0⟩
            rw [hfs] at h
            dsimp only at h
            injection h with h
            injection h with h1 h2
            rw [← h1, ← h2]
            have := ih hfs
            simp
            omega

theorem findEventSplit_append {b pre post : List Char} (c : List Char)
    (h : findEventSplit b = some (pre, post)) :
    findEventSplit (b ++ c) = some (pre, post ++ c) := by
  induction b generalizing pre post with
  | nil => cases h
  | cons x rest ih =>
      unfold findEventSplit at h
      by_cases hc : x = '\n' ∧ rest.head? = some '\n'
      · rw [if_pos hc] at h
        injection h with h
        injection h with h1 h2
        cases rest with
        | nil => exact absurd hc.2 (by simp)
        | cons r rs =>
            show findEventSplit (x :: ((r :: rs) ++ c)) = some (pre, post ++ c)
            unfold findEventSplit
            have hc2 : x = '\n' ∧ ((r :: rs) ++ c).head? = some '\n' := by
              refine ⟨hc.1, ?_⟩
              have := hc.2
              simpa using this
            rw [if_pos hc2]
            rw [← h1, ← h2]
            simp
      · rw [if_neg hc] at h
        cases hfs : findEventSplit rest with
        | none => rw [hfs] at h; cases h
        | some pp =>
            rcases pp with ⟨pre0, post0⟩
            rw [hfs] at h
            dsimp only at h
            injection h with h
            injection h with h1 h2
            show findEventSplit (x :: (rest ++ c)) = some (pre, post ++ c)
            unfold findEventSplit
            have hc2 : ¬(x = '\n' ∧ (rest ++ c).head? = some '\n') := by
              intro hx
              apply hc
              refine ⟨hx.1, ?_⟩
              cases rest with
              | nil => simp [findEventSplit] at hfs
              | cons r rs => simpa using hx.2
            rw [if_neg hc2]
            rw [ih hfs]
            dsimp only
            rw [← h1, ← h2]

end Sse

namespace Sse

open HeavyFingers

theorem splitEventsFuel_of_none {b : List Char} (h : findEventSplit b = none) :
    ∀ fuel, splitEventsFuel fuel b = ([], b) := by
  intro fuel
  cases fuel with
  | zero => rfl
  | succ f =>
      unfold splitEventsFuel
      rw [h]

theorem findEventSplit_nil : findEventSplit [] = none := rfl

theorem splitEventsFuel_succ_some {b pre post : List Char}
    (hfs : findEventSplit b = some (pre, post)) (n : Nat) :
    splitEventsFuel (n + 1) b =
      (pre :: (splitEventsFuel n post).1, (splitEventsFuel n post).2) := by
  conv_lhs => unfold splitEventsFuel
  rw [hfs]

theorem splitEventsFuel_stable : ∀ (k : Nat) (b : List Char) (n m : Nat),
    b.length ≤ k → b.length ≤ n → b.length ≤ m →
    splitEventsFuel n b = splitEventsFuel m b := by
  intro k
  induction k with
  | zero =>
      intro b n m hk _ _
      have hb : b = [] := List.eq_nil_of_length_eq_zero (Nat.le_zero.mp hk)
      subst hb
      rw [splitEventsFuel_of_none findEventSplit_nil n,
        splitEventsFuel_of_none findEventSplit_nil m]
  | succ k ih =>
      intro b n m hk hn hm
      cases hfs : findEventSplit b with
      | none => rw [splitEventsFuel_of_none hfs n, splitEventsFuel_of_none hfs m]
      | some pp =>
          rcases pp with ⟨pre, post⟩
          have hlen := findEventSplit_some_length hfs
          cases n with
          | zero => omega
          | succ n0 =>
              cases m with
              | zero => omega
              | succ m0 =>
                  rw [splitEventsFuel_succ_some hfs n0, splitEventsFuel_succ_some hfs m0]
                  rw [ih post n0 m0 (by omega) (by omega) (by omega)]

theorem splitEvents_nil : splitEvents [] = ([], []) := rfl

theorem splitEvents_of_none {b : List Char} (h : findEventSplit b = none) :
    splitEvents b = ([], b) :=
  splitEventsFuel_of_none h b.length

theorem splitEvents_some {b pre post : List Char}
    (hfs : findEventSplit b = some (pre, post)) :
    splitEvents b = (pre :: (splitEvents post).1, (splitEvents post).2) := by
  have hlen := findEventSplit_some_length hfs
  obtain ⟨len, hb⟩ : ∃ len, b.length = len + 1 :=
    ⟨pre.length + 1 + post.length, by omega⟩
  unfold splitEvents
  rw [hb, splitEventsFuel_succ_some hfs len,
    splitEventsFuel_stable post.length post len post.length (Nat.le_refl _) (by omega)
      (Nat.le_refl _)]

theorem splitEvents_rest_none : ∀ (k : Nat) (b : List Char), b.length ≤ k →
    findEventSplit (splitEvents b).2 = none := by
  intro k
  induction k with
  | zero =>
      intro b hk
      have hb : b = [] := List.eq_nil_of_length_eq_zero (Nat.le_zero.mp hk)
      subst hb
      rw [splitEvents_nil]
      rfl
  | succ k ih =>
      intro b hk
      cases hfs : findEventSplit b with
      | none => rw [splitEvents_of_none hfs]; exact hfs
      | some pp =>
          rcases pp with ⟨pre, post⟩
          have hlen := findEventSplit_some_length hfs
          rw [splitEvents_some hfs]
          exact ih post (by omega)

theorem splitEvents_append : ∀ (k : Nat) (b c : List Char), b.length ≤ k →
    splitEvents (b ++ c) =
      ((splitEvents b).1 ++ (splitEvents ((splitEvents b).2 ++ c)).1,
        (splitEvents ((splitEvents b).2 ++ c)).2) := by
  intro k
  induction k with
  | zero =>
      intro b c hk
      have hb : b = [] := List.eq_nil_of_length_eq_zero (Nat.le_zero.mp hk)
      subst hb
      rw [splitEvents_nil]
      simp
  | succ k ih =>
      intro b c hk
      cases hfs : findEventSplit b with
      | none =>
          rw [splitEvents_of_none hfs]
          simp
      | some pp =>
          rcases pp with ⟨pre, post⟩
          have hlen := findEventSplit_some_length hfs
          rw [splitEvents_some (findEventSplit_append c hfs), splitEvents_some hfs]
          dsimp only
          rw [ih post c (by omega)]
          simp

end Sse

namespace Sse

open HeavyFingers

open Route (StreamFinishReason)

theorem applyEvents_append (parse : String → Option Json)
    (acc : List String × List StreamFinishReason) (e1 e2 : List (List Char)) :
    applyEvents parse acc (e1 ++ e2) =
      match applyEvents parse acc e1 with
      | .error e => .error e
      | .ok (acc1, true) => .ok (acc1, true)
      | .ok (acc1, false) => applyEvents parse acc1 e2 := by
  induction e1 generalizing acc with
  | nil => rfl
  | cons e rest ih =>
      rw [List.cons_append]
      simp only [applyEvents]
      cases hae : applyEvent parse acc e with
      | error err => rfl
      | ok p =>
          rcases p with ⟨acc1, done⟩
          cases done with
          | true => rfl
          | false => exact ih acc1

theorem streamBodyWholeFrom_append (parse : String → Option Json)
    (acc : List String × List StreamFinishReason) (b tail : List Char) :
    streamBodyWholeFrom parse acc (b ++ tail) =
      match applyEvents parse acc (splitEvents b).1 with
      | .error e => .error e
      | .ok (acc1, true) => .ok acc1
      | .ok (acc1, false) => streamBodyWholeFrom parse acc1 ((splitEvents b).2 ++ tail) := by
  unfold streamBodyWholeFrom
  rw [splitEvents_append b.length b tail (Nat.le_refl _)]
  dsimp only
  rw [applyEvents_append]
  cases hae : applyEvents parse acc (splitEvents b).1 with
  | error e => rfl
  | ok p =>
      rcases p with ⟨acc1, done⟩
      cases done with
      | true => rfl
      | false => rfl

theorem streamBodyLoop_cons (parse : String → Option Json)
    (acc : List String × List StreamFinishReason) (buffer : List Char)
    (chunk : String) (rest : List String) :
    streamBodyLoop parse acc buffer (chunk :: rest) =
      match applyEvents parse acc (splitEvents (buffer ++ replCRLF chunk.data)).1 with
      | .error e => .error e
      | .ok (acc1, true) => .ok acc1
      | .ok (acc1, false) =>
          streamBodyLoop parse acc1 (splitEvents (buffer ++ replCRLF chunk.data)).2 rest := by
  simp only [streamBodyLoop]

theorem streamBodyLoop_eq_whole (parse : String → Option Json) :
    ∀ (chunks : List String) (acc : List String × List StreamFinishReason)
      (buffer : List Char), findEventSplit buffer = none →
      streamBodyLoop parse acc buffer chunks =
        streamBodyWholeFrom parse acc
          (buffer ++ (chunks.map (fun c => replCRLF c.data)).flatten) := by
  intro chunks
  induction chunks with
  | nil =>
      intro acc buffer hbuf
      rw [List.map_nil, List.flatten_nil, List.append_nil]
      unfold streamBodyWholeFrom
      rw [splitEvents_of_none hbuf]
      rfl
  | cons chunk rest ih =>
      intro acc buffer hbuf
      rw [streamBodyLoop_cons]
      rw [List.map_cons, List.flatten_cons, ← List.append_assoc]
      rw [streamBodyWholeFrom_append parse acc (buffer ++ replCRLF chunk.data)]
      cases hae : applyEvents parse acc (splitEvents (buffer ++ replCRLF chunk.data)).1 with
      | error e => rfl
      | ok p =>
          rcases p with ⟨acc1, done⟩
          cases done with
          | true => rfl
          | false =>
              exact ih acc1 _
                (splitEvents_rest_none (buffer ++ replCRLF chunk.data).length _ (Nat.le_refl _))

end Sse

namespace Sse

open HeavyFingers
open Route (StreamFinishReason)

/-- C9: the HTTP SSE transport. (i) Reading the body in chunks, normalizing
CRLF per chunk and buffering partial events, is equivalent to splitting the
whole normalized body on blank-line event boundaries; (ii) an event's `data:`
payload lines are concatenated, parsed, and mapped to the string
`choices[].delta.content` entries as tokens and the normalized
`choices[].finish_reason` entries; (iii) a top-level non-empty
`error.message` raises with that message; (iv) a non-2xx response status
raises with the descriptive error of `readDedalusErrorResponse`; (v) a
`[DONE]` sentinel event ends the stream without error, later chunks
unread. -/
theorem c9_sse_transport (parse : String → Option Json) (key : String)
    (hkey : jsTrim key ≠ "") (status : Nat) (eb : Option Json) (chunks : List String) :
    (streamDedalusCompletion parse (some key) true status eb true chunks =
      streamBodyWholeFrom parse ([], [])
        ((chunks.map (fun c => replCRLF c.data)).flatten)) ∧
    (∀ (raw : String) (payload : Json) (choices : List Json),
      parse (jsTrim (extractSseDataLines raw)) = some payload →
      jsTrim (extractSseDataLines raw) ≠ "" →
      jsTrim (extractSseDataLines raw) ≠ "[DONE]" →
      payloadErrorMessage payload = none →
      payload.getField "choices" = some (.arr choices) →
      processDedalusSseEvent parse raw =
        .ok (choices.filterMap choiceToken, choices.filterMap choiceFinishReason, false)) ∧
    (∀ (raw : String) (payload : Json) (m : String),
      parse (jsTrim (extractSseDataLines raw)) = some payload →
      jsTrim (extractSseDataLines raw) ≠ "" →
      jsTrim (extractSseDataLines raw) ≠ "[DONE]" →
      payloadErrorMessage payload = some m → m ≠ "" →
      processDedalusSseEvent parse raw = .error m) ∧
    (∀ hb : Bool, streamDedalusCompletion parse (some key) false status eb hb chunks =
      .error (readDedalusErrorResponse status eb)) ∧
    (∀ (acc : List String × List StreamFinishReason) (later : List String),
      streamBodyLoop parse acc [] ("data: [DONE]\n\n" :: later) = .ok acc) := by
  refine ⟨?_, ?_, ?_, ?_, ?_⟩
  · have h1 : streamDedalusCompletion parse (some key) true status eb true chunks =
        streamBodyLoop parse ([], []) [] chunks := by
      unfold streamDedalusCompletion
      dsimp only
      rw [if_neg hkey]
      rfl
    rw [h1, streamBodyLoop_eq_whole parse chunks ([], []) [] findEventSplit_nil,
      List.nil_append]
  · intro raw payload choices hparse hne hnd herr hch
    unfold processDedalusSseEvent
    dsimp only
    rw [if_neg hne, if_neg hnd, hparse]
    dsimp only
    rw [herr]
    dsimp only
    rw [hch]
  · intro raw payload m hparse hne hnd herr hm
    unfold processDedalusSseEvent
    dsimp only
    rw [if_neg hne, if_neg hnd, hparse]
    dsimp only
    rw [herr]
    dsimp only
    rw [if_pos hm]
  · intro hb
    unfold streamDedalusCompletion
    dsimp only
    rw [if_neg hkey]
    rfl
  · intro acc later
    rw [streamBodyLoop_cons]
    have hsp : splitEvents ([] ++ replCRLF ("data: [DONE]\n\n").data) =
        ([("data: [DONE]").data], []) := rfl
    rw [hsp]
    dsimp only
    have hev : processDedalusSseEvent parse ⟨("data: [DONE]").data⟩ =
        .ok ([], [], true) := rfl
    have hae : applyEvents parse acc [("data: [DONE]").data] = .ok (acc, true) := by
      simp only [applyEvents, applyEvent]
      rw [hev]
      simp
    rw [hae]

end Sse

namespace Sse

open HeavyFingers

/-- Witness for C9: a valid key, a token event split across two chunks, and a
`[DONE]` event followed by a further event that stays unprocessed; the
chunked run equals the whole-body run and yields exactly the token `Hi`. -/
theorem c9_sse_transport_witness :
    jsTrim "k" ≠ "" ∧
    streamDedalusCompletion testParse (some "k") true 200 none true
        ["data: tok\n", "\ndata: [DONE]\n\ndata: tok\n\n"] =
      streamBodyWholeFrom testParse ([], [])
        (((["data: tok\n", "\ndata: [DONE]\n\ndata: tok\n\n"] : List String).map
          (fun c => replCRLF c.data)).flatten) ∧
    streamDedalusCompletion testParse (some "k") true 200 none true
        ["data: tok\n", "\ndata: [DONE]\n\ndata: tok\n\n"] = .ok (["Hi"], []) := by
  refine ⟨by decide, ?_, by decide⟩
  exact (c9_sse_transport testParse "k" (by decide) 200 none
    ["data: tok\n", "\ndata: [DONE]\n\ndata: tok\n\n"]).1

end Sse
